import Mathlib

/-!
Verification of the Komornicka 100 activity-verification engine.

The geometric core is embedded from the `calculate_similarity` snippet in
`GPX_VERIFICATION.md` (shapely's planar `LineString.distance` is modelled as
the minimum Euclidean point-to-segment distance).  Components whose Python
sources are not in the repository snapshot (the worker's
`verify_activity_against_source`, `simplify_points`, and the scheduler) are
modelled from the specification, as marked in their doc comments.
-/

/-- A GPS point, `(latitude, longitude)` in degrees, as the Python code's
`(point.latitude, point.longitude)` tuples.  Floating point is modelled by `ℝ`. -/
abbrev Pt : Type := ℝ × ℝ

/-- Euclidean distance from point `p` to the segment `[a, b]` in the plane:
the distance to the orthogonal projection of `p` onto the line through `a`
and `b`, clamped to the segment.  This is the mathematical content of
shapely's `LineString.distance` restricted to one segment, which the code in
`GPX_VERIFICATION.md` calls via `source_line.distance(point)`. -/
noncomputable def distPointSeg (p a b : ℝ × ℝ) : ℝ :=
  if (b.1 - a.1) ^ 2 + (b.2 - a.2) ^ 2 = 0 then
    Real.sqrt ((p.1 - a.1) ^ 2 + (p.2 - a.2) ^ 2)
  else
    Real.sqrt
      ((p.1 - (a.1 + max 0 (min 1 (((p.1 - a.1) * (b.1 - a.1) + (p.2 - a.2) * (b.2 - a.2)) /
          ((b.1 - a.1) ^ 2 + (b.2 - a.2) ^ 2))) * (b.1 - a.1))) ^ 2 +
       (p.2 - (a.2 + max 0 (min 1 (((p.1 - a.1) * (b.1 - a.1) + (p.2 - a.2) * (b.2 - a.2)) /
          ((b.1 - a.1) ^ 2 + (b.2 - a.2) ^ 2))) * (b.2 - a.2))) ^ 2)

/-- `p` lies exactly on the segment from `a` to `b`. -/
def SegMem (p a b : ℝ × ℝ) : Prop :=
  ∃ t : ℝ, 0 ≤ t ∧ t ≤ 1 ∧
    p.1 = a.1 + t * (b.1 - a.1) ∧ p.2 = a.2 + t * (b.2 - a.2)

/-- Distance from point `q` to the polyline with vertices `coords`: the
minimum of the point-to-segment distances over consecutive vertex pairs.
This models shapely's `LineString.distance(point)` (a `LineString` has at
least two coordinates; on fewer the value is irrelevant and taken as 0). -/
noncomputable def lineDist (coords : List (ℝ × ℝ)) (q : ℝ × ℝ) : ℝ :=
  match coords.zip coords.tail with
  | [] => 0
  | s :: rest =>
      rest.foldl (fun d ab => min d (distPointSeg q ab.1 ab.2)) (distPointSeg q s.1 s.2)

/-- The matcher's point-to-route distance in meters: the code computes
`source_line.distance(point) * 111319.9` on `(lon, lat)` coordinates
(`GPX_VERIFICATION.md`, `calculate_similarity`). -/
noncomputable def pointRouteDistance (source_points : List Pt) (p : Pt) : ℝ :=
  lineDist (source_points.map (fun q => (q.2, q.1))) (p.2, p.1) * 111319.9

/-- `calculate_similarity` from `GPX_VERIFICATION.md`: builds the source
`LineString` from `(lon, lat)` pairs, counts the activity points whose
distance in meters is at most `max_deviation`, and returns
`points_within_threshold / total_points` (`0` when there are no points).
The snippet's `print` logging and the returned `deviations` list do not
influence the score and are not modelled. -/
noncomputable def calculate_similarity (source_points activity_points : List Pt)
    (max_deviation : ℝ) : ℝ :=
  let source_line := source_points.map (fun q => (q.2, q.1))
  let total_points := activity_points.length
  let points_within_threshold := activity_points.foldl
    (fun acc q =>
      if lineDist source_line (q.2, q.1) * 111319.9 ≤ max_deviation then acc + 1 else acc)
    (0 : ℕ)
  if total_points = 0 then 0 else (points_within_threshold : ℝ) / (total_points : ℝ)

/-- Spec-side definition, following the spec's words: "`matched_count` =
number of points whose distance ≤ `max_deviation_m`". -/
noncomputable def spec_matched_count (source_points : List Pt) (max_deviation : ℝ)
    (activity_points : List Pt) : ℕ :=
  (activity_points.filter
    (fun q => decide (pointRouteDistance source_points q ≤ max_deviation))).length

/-- `p` lies exactly on one of the source polyline's segments. -/
def liesOnSource (source_points : List Pt) (p : Pt) : Prop :=
  ∃ ab ∈ source_points.zip source_points.tail, SegMem p ab.1 ab.2

/-- Result record of the route matcher, with the fields the Python result
dict exposes (`verified`, `similarity_score`, `message`). -/
structure VerifyResult where
  verified : Bool
  similarity_score : ℝ
  message : String

/-- Matcher configuration, spec §4.1/§6:
`{max_deviation_m, similarity_threshold (0–1], min_distance_m}`. -/
structure Config where
  max_deviation_m : ℝ
  similarity_threshold : ℝ
  min_distance_m : ℝ

/-- Modelled from the spec: `verify_activity_against_source` (the worker's
`gpx_comparison` module is not in the repository snapshot; only its import
and result fields appear in `GPX_VERIFICATION.md`).  Spec §4.1: an activity
with zero points yields `verified = false` with an explicit "no data"
message; otherwise the verdict is verified iff
`similarity_score ≥ similarity_threshold` and
`activity_distance ≥ min_distance_m`. -/
noncomputable def verify_activity_against_source (cfg : Config)
    (source_points activity_points : List Pt) (activity_distance : ℝ) : VerifyResult :=
  if activity_points.isEmpty then
    { verified := false, similarity_score := 0, message := "Activity has no GPS data" }
  else
    let score := calculate_similarity source_points activity_points cfg.max_deviation_m
    if cfg.similarity_threshold ≤ score ∧ cfg.min_distance_m ≤ activity_distance then
      { verified := true, similarity_score := score, message := "Activity matches source route" }
    else
      { verified := false, similarity_score := score,
        message := "Activity does not match source route" }

/-- Modelled from the spec: the inner loop of the Douglas-Peucker
simplification (`simplify_points` is not in the repository snapshot).
Scans `rest` with running index `i`, keeping the index and value of the
largest perpendicular distance to the chord from `a` to `b`, exactly as the
classic `for i in range(1, len(points) - 1)` loop. -/
noncomputable def maxPerpAux (a b : Pt) : List Pt → ℕ → ℕ × ℝ → ℕ × ℝ
  | [], _, best => best
  | q :: rest, i, best =>
      maxPerpAux a b rest (i + 1)
        (if best.2 < distPointSeg q a b then (i, distPointSeg q a b) else best)

/-- Modelled from the spec: recursive Douglas-Peucker with explicit fuel
(the recursion descends into `points[:index+1]` and `points[index:]`, which
are shorter than the input whenever the split index is interior, so
`pts.length` fuel suffices).  If the maximal perpendicular distance exceeds
the tolerance the two halves are simplified and joined as
`left[:-1] + right`; otherwise only the two endpoints are kept. -/
noncomputable def dpRec : ℕ → ℝ → List Pt → List Pt
  | 0, _, pts => pts
  | fuel + 1, eps, pts =>
      if pts.length ≤ 2 then pts
      else
        let a := pts.headD (0, 0)
        let b := pts.getLastD (0, 0)
        let r := maxPerpAux a b ((pts.drop 1).dropLast) 1 (0, 0)
        if eps < r.2 then
          (dpRec fuel eps (pts.take (r.1 + 1))).dropLast ++ dpRec fuel eps (pts.drop r.1)
        else [a, b]

/-- Modelled from the spec: `simplify_points` — Douglas-Peucker
simplification of a point sequence with tolerance `eps` (spec §4.1 step 1). -/
noncomputable def simplify_points (eps : ℝ) (pts : List Pt) : List Pt :=
  dpRec pts.length eps pts

/-! Modelled from the spec: the scheduler state machine (§4.2), token
manager (§4.3) and result recorder — the `worker/` sources are not in the
repository snapshot.  The data model follows §3; the route matcher is a
parameter of the environment (`Env.matcher`), instantiable with
`verify_activity_against_source`. -/

/-- Participant lifecycle status, spec §3. -/
inductive PStatus
  | pendingEmail
  | pendingConnection
  | active
  | disconnected
  | removed
  deriving DecidableEq

/-- Credential states, spec §3/§4.3. -/
inductive CredState
  | connected
  | refreshPending
  | invalid
  deriving DecidableEq

/-- Modelled from the spec: a Participant row — identifier, lifecycle
status, and the per-participant fetch cursor (high-water mark over external
activity ids). -/
structure Participant where
  id : ℕ
  status : PStatus
  cursor : ℕ
  deriving DecidableEq

/-- Modelled from the spec: a Credential row, keyed by its participant.
Token values are irrelevant to the claims and not modelled. -/
structure Credential where
  pid : ℕ
  state : CredState
  deriving DecidableEq

/-- Kinds of audit-log entries, spec §3/§7. -/
inductive AuditKind
  | approval
  | authError
  | fetchFailure
  deriving DecidableEq

/-- An immutable audit-log record. -/
structure AuditEntry where
  pid : ℕ
  kind : AuditKind
  deriving DecidableEq

/-- A fetched activity: external id, sport-type flag, GPS stream and total
recorded distance. -/
structure ActivitySummary where
  extId : ℕ
  isBike : Bool
  points : List Pt
  distance : ℝ

/-- Modelled from the spec: an ActivityAttempt row, uniquely keyed by
`(pid, extId)`; append-only. -/
structure Attempt where
  pid : ℕ
  extId : ℕ
  verified : Bool
  score : ℝ

/-- Modelled from the spec: the data-store state the engine reads and
writes — participants, credentials, attempt rows, approved rows, the
leaderboard aggregate and the audit log. -/
structure Db where
  participants : List Participant
  credentials : List Credential
  attempts : List Attempt
  approved : List Attempt
  leaderboard : List (ℕ × ℕ)
  audit : List AuditEntry

/-- The external world one reconciliation pass interacts with: the
activities the fitness API returns per participant, whether a token refresh
for a participant succeeds, and the route matcher. -/
structure Env where
  activities : ℕ → List ActivitySummary
  refreshOk : ℕ → Bool
  matcher : List Pt → ℝ → VerifyResult

/-- Look up a participant row by id. -/
def findPart (ps : List Participant) (i : ℕ) : Option Participant :=
  ps.find? (fun p => p.id == i)

/-- Look up a credential row by participant id. -/
def findCredL (cs : List Credential) (i : ℕ) : Option Credential :=
  cs.find? (fun c => c.pid == i)

/-- Write cursor value `v` on participant `i`. -/
def setCursor (i v : ℕ) (ps : List Participant) : List Participant :=
  ps.map (fun p => if p.id == i then { p with cursor := v } else p)

/-- Move participant `i`'s credential to the `invalid` state. -/
def setInvalid (i : ℕ) (cs : List Credential) : List Credential :=
  cs.map (fun c => if c.pid == i then { c with state := CredState.invalid } else c)

/-- Increment participant `i`'s leaderboard count (inserting it at 1 if
absent). -/
def bumpBoard (i : ℕ) : List (ℕ × ℕ) → List (ℕ × ℕ)
  | [] => [(i, 1)]
  | (j, c) :: rest => if j == i then (j, c + 1) :: rest else (j, c) :: bumpBoard i rest

/-- Does an ActivityAttempt row for `(i, e)` exist? The idempotency check of
spec §4.2. -/
def hasAttempt (db : Db) (i e : ℕ) : Bool :=
  db.attempts.any (fun t => t.pid == i && t.extId == e)

/-- Modelled from the spec: score and persist one candidate activity.  If an
attempt for the key already exists the activity is skipped entirely;
otherwise the matcher runs and the attempt (plus approval, leaderboard
increment and audit entry when verified) is appended atomically. -/
def processActivity (env : Env) (i : ℕ) (db : Db) (a : ActivitySummary) : Db :=
  if hasAttempt db i a.extId then db
  else
    let r := env.matcher a.points a.distance
    let t : Attempt := ⟨i, a.extId, r.verified, r.similarity_score⟩
    { db with
      attempts := db.attempts ++ [t]
      approved := if r.verified then db.approved ++ [t] else db.approved
      leaderboard := if r.verified then bumpBoard i db.leaderboard else db.leaderboard
      audit := if r.verified then db.audit ++ [⟨i, AuditKind.approval⟩] else db.audit }

/-- Activities listed for participant `p`: strictly newer than the cursor
and filtered to bike rides (spec §4.2). -/
def candidates (env : Env) (p : Participant) : List ActivitySummary :=
  (env.activities p.id).filter (fun a => a.isBike && decide (p.cursor < a.extId))

/-- New cursor after a pass over `cands`: the high-water mark of attempted
external ids. -/
def advanceCursor (p : Participant) (cands : List ActivitySummary) : ℕ :=
  cands.foldl (fun m a => max m a.extId) p.cursor

/-- Modelled from the spec: process all candidate activities of an active,
refreshable participant, then advance the cursor. -/
def processActive (env : Env) (i : ℕ) (p : Participant) (db : Db) : Db :=
  let cands := candidates env p
  let db' := cands.foldl (processActivity env i) db
  { db' with participants := setCursor i (advanceCursor p cands) db'.participants }

/-- Modelled from the spec: one participant's turn in a reconciliation pass
(spec §4.2 contract): skip unless status is `active` and a credential
exists; an `invalid` credential is skipped and logged; a failed refresh
moves the credential to `invalid` and logs an `AuthError`; otherwise the
candidate activities are scored and the cursor advanced. -/
def stepParticipant (env : Env) (db : Db) (i : ℕ) : Db :=
  match findPart db.participants i with
  | none => db
  | some p =>
      if p.status = PStatus.active then
        match findCredL db.credentials i with
        | none => db
        | some c =>
            if c.state = CredState.invalid then
              { db with audit := db.audit ++ [⟨i, AuditKind.authError⟩] }
            else if env.refreshOk i then processActive env i p db
            else
              { db with
                credentials := setInvalid i db.credentials
                audit := db.audit ++ [⟨i, AuditKind.authError⟩] }
      else db

/-- Modelled from the spec: one reconciliation pass — enumerate the
participants, then process each one in order. -/
def runPass (env : Env) (db : Db) : Db :=
  (db.participants.map (fun p => p.id)).foldl (stepParticipant env) db

/-- Number of ActivityAttempt rows with key `(i, e)`. -/
def attemptKeyCount (db : Db) (i e : ℕ) : ℕ :=
  (db.attempts.filter (fun t => t.pid == i && t.extId == e)).length

/-- The §3 invariant: at most one ActivityAttempt row per
(participant, external activity id) pair. -/
def UniqueAttempts (db : Db) : Prop :=
  ∀ i e, attemptKeyCount db i e ≤ 1

/-- The ActivityAttempt rows belonging to participant `i`. -/
def attemptsFor (db : Db) (i : ℕ) : List Attempt :=
  db.attempts.filter (fun t => t.pid == i)

/-- Number of AuthError audit entries for participant `i`. -/
def authErrCount (db : Db) (i : ℕ) : ℕ :=
  (db.audit.filter (fun e2 => e2.pid == i && e2.kind == AuditKind.authError)).length

/-- Participant `i` is settled in `db`: their turn in a further pass over an
unchanged environment can add no attempt row — they are inactive, have no
usable credential, or their cursor already covers every bike activity the
environment returns. -/
def Settled (env : Env) (db : Db) (i : ℕ) : Prop :=
  match findPart db.participants i with
  | none => True
  | some p =>
      p.status ≠ PStatus.active ∨
      match findCredL db.credentials i with
      | none => True
      | some c =>
          c.state = CredState.invalid ∨
          (env.refreshOk i = true ∧
            ∀ a ∈ env.activities i, a.isBike = true → a.extId ≤ p.cursor)

/-- Fixture: a two-participant data store for instantiating scheduler
theorems on concrete data. -/
def dbW : Db :=
  { participants := [⟨1, PStatus.active, 0⟩, ⟨2, PStatus.active, 0⟩]
    credentials := [⟨1, CredState.connected⟩, ⟨2, CredState.connected⟩]
    attempts := []
    approved := []
    leaderboard := []
    audit := [] }

/-- Fixture: an environment where participant 1's token refresh fails,
participant 2 has one new bike activity, and the matcher approves every
activity. -/
def envW : Env :=
  { activities := fun i => if i = 2 then [⟨5, true, [], 0⟩] else []
    refreshOk := fun i => i == 2
    matcher := fun _ _ => ⟨true, 1, "ok"⟩ }

/-! ### Lemmas about the geometric core -/

lemma distPointSeg_nonneg (p a b : ℝ × ℝ) : 0 ≤ distPointSeg p a b := by
  unfold distPointSeg
  split <;> exact Real.sqrt_nonneg _

lemma distPointSeg_of_segMem {p a b : ℝ × ℝ} (h : SegMem p a b) :
    distPointSeg p a b = 0 := by
  obtain ⟨t, ht0, ht1, h1, h2⟩ := h
  unfold distPointSeg
  by_cases hz : (b.1 - a.1) ^ 2 + (b.2 - a.2) ^ 2 = 0
  · rw [if_pos hz]
    have hx : b.1 - a.1 = 0 := by nlinarith [sq_nonneg (b.1 - a.1), sq_nonneg (b.2 - a.2)]
    have hy : b.2 - a.2 = 0 := by nlinarith [sq_nonneg (b.1 - a.1), sq_nonneg (b.2 - a.2)]
    have e1 : p.1 - a.1 = 0 := by rw [h1, hx]; ring
    have e2 : p.2 - a.2 = 0 := by rw [h2, hy]; ring
    rw [e1, e2]
    simp
  · rw [if_neg hz]
    have hT : ((p.1 - a.1) * (b.1 - a.1) + (p.2 - a.2) * (b.2 - a.2)) /
        ((b.1 - a.1) ^ 2 + (b.2 - a.2) ^ 2) = t := by
      rw [h1, h2]
      field_simp
      ring
    rw [hT, min_eq_right ht1, max_eq_right ht0]
    have e1 : p.1 - (a.1 + t * (b.1 - a.1)) = 0 := by rw [h1]; ring
    have e2 : p.2 - (a.2 + t * (b.2 - a.2)) = 0 := by rw [h2]; ring
    rw [e1, e2]
    simp

lemma foldl_min_le_init (f : α → ℝ) (l : List α) (d : ℝ) :
    l.foldl (fun d' ab => min d' (f ab)) d ≤ d := by
  induction l generalizing d with
  | nil => simp
  | cons x xs ih =>
      simp only [List.foldl_cons]
      exact le_trans (ih _) (min_le_left _ _)

lemma foldl_min_le_mem (f : α → ℝ) {l : List α} {x : α} (hx : x ∈ l) (d : ℝ) :
    l.foldl (fun d' ab => min d' (f ab)) d ≤ f x := by
  induction l generalizing d with
  | nil => cases hx
  | cons y ys ih =>
      simp only [List.foldl_cons]
      rcases List.mem_cons.mp hx with h | h
      · subst h
        exact le_trans (foldl_min_le_init f ys _) (min_le_right _ _)
      · exact ih h _

lemma foldl_min_nonneg (f : α → ℝ) (hf : ∀ x, 0 ≤ f x) (l : List α) (d : ℝ)
    (hd : 0 ≤ d) : 0 ≤ l.foldl (fun d' ab => min d' (f ab)) d := by
  induction l generalizing d with
  | nil => simpa
  | cons y ys ih =>
      simp only [List.foldl_cons]
      exact ih _ (le_min hd (hf y))

lemma lineDist_nonneg (coords : List (ℝ × ℝ)) (q : ℝ × ℝ) : 0 ≤ lineDist coords q := by
  unfold lineDist
  cases h : coords.zip coords.tail with
  | nil => simp
  | cons s rest =>
      exact foldl_min_nonneg _ (fun ab => distPointSeg_nonneg q ab.1 ab.2) rest _
        (distPointSeg_nonneg q s.1 s.2)

lemma lineDist_le_seg {coords : List (ℝ × ℝ)} {ab : (ℝ × ℝ) × (ℝ × ℝ)}
    (h : ab ∈ coords.zip coords.tail) (q : ℝ × ℝ) :
    lineDist coords q ≤ distPointSeg q ab.1 ab.2 := by
  unfold lineDist
  cases hz : coords.zip coords.tail with
  | nil => rw [hz] at h; cases h
  | cons s rest =>
      rw [hz] at h
      rcases List.mem_cons.mp h with h' | h'
      · subst h'
        exact foldl_min_le_init _ rest _
      · exact foldl_min_le_mem (fun ab => distPointSeg q ab.1 ab.2) h' _

lemma segMem_swap {p a b : ℝ × ℝ} (h : SegMem p a b) :
    SegMem (p.2, p.1) (a.2, a.1) (b.2, b.1) := by
  obtain ⟨t, ht0, ht1, h1, h2⟩ := h
  exact ⟨t, ht0, ht1, h2, h1⟩

lemma pointRouteDistance_eq_zero_of_liesOn {source_points : List Pt} {p : Pt}
    (h : liesOnSource source_points p) : pointRouteDistance source_points p = 0 := by
  obtain ⟨ab, hmem, hseg⟩ := h
  have htail : (source_points.map (fun q : Pt => (q.2, q.1))).tail =
      source_points.tail.map (fun q : Pt => (q.2, q.1)) := by
    cases source_points <;> rfl
  have hmem' : (Prod.map (fun q : Pt => (q.2, q.1)) (fun q : Pt => (q.2, q.1))) ab ∈
      (source_points.map (fun q => (q.2, q.1))).zip
        ((source_points.map (fun q => (q.2, q.1))).tail) := by
    rw [htail, List.zip_map]
    exact List.mem_map_of_mem _ hmem
  have hd0 : distPointSeg (p.2, p.1) (ab.1.2, ab.1.1) (ab.2.2, ab.2.1) = 0 :=
    distPointSeg_of_segMem (segMem_swap hseg)
  have hle := lineDist_le_seg hmem' (p.2, p.1)
  simp only [Prod.map] at hle
  have hge := lineDist_nonneg (source_points.map (fun q => (q.2, q.1))) (p.2, p.1)
  have : lineDist (source_points.map (fun q => (q.2, q.1))) (p.2, p.1) = 0 := by
    have := hle.trans_eq hd0
    linarith
  unfold pointRouteDistance
  rw [this]
  ring

lemma foldl_count_if (P : Pt → Prop) [DecidablePred P] (l : List Pt) (n : ℕ) :
    l.foldl (fun acc q => if P q then acc + 1 else acc) n =
      n + (l.filter (fun q => decide (P q))).length := by
  induction l generalizing n with
  | nil => simp
  | cons x xs ih =>
      simp only [List.foldl_cons, List.filter_cons]
      by_cases h : P x
      · rw [if_pos h, ih]
        simp [h]
        omega
      · rw [if_neg h, ih]
        simp [h]

lemma calculate_similarity_char (source_points activity_points : List Pt)
    (max_deviation : ℝ) :
    calculate_similarity source_points activity_points max_deviation =
      if activity_points.length = 0 then 0
      else (spec_matched_count source_points max_deviation activity_points : ℝ) /
        (activity_points.length : ℝ) := by
  simp only [calculate_similarity, spec_matched_count, pointRouteDistance]
  rw [foldl_count_if
    (fun q => lineDist (source_points.map fun r => (r.2, r.1)) (q.2, q.1) * 111319.9 ≤
      max_deviation)]
  simp

lemma calculate_similarity_empty (source_points : List Pt) (max_deviation : ℝ) :
    calculate_similarity source_points [] max_deviation = 0 := by
  simp [calculate_similarity]

lemma spec_matched_count_le (source_points : List Pt) (dev : ℝ) (l : List Pt) :
    spec_matched_count source_points dev l ≤ l.length :=
  List.length_filter_le _ _

lemma calculate_similarity_nonneg (source_points activity_points : List Pt) (dev : ℝ) :
    0 ≤ calculate_similarity source_points activity_points dev := by
  rw [calculate_similarity_char]
  split
  · exact le_refl 0
  · positivity

lemma calculate_similarity_le_one (source_points activity_points : List Pt) (dev : ℝ) :
    calculate_similarity source_points activity_points dev ≤ 1 := by
  rw [calculate_similarity_char]
  split
  · exact zero_le_one
  · rename_i h
    rw [div_le_one (by positivity)]
    exact_mod_cast spec_matched_count_le source_points dev activity_points

lemma calculate_similarity_all_on {source_points activity_points : List Pt} {dev : ℝ}
    (hne : activity_points ≠ []) (hdev : 0 ≤ dev)
    (hall : ∀ p ∈ activity_points, liesOnSource source_points p) :
    calculate_similarity source_points activity_points dev = 1 := by
  rw [calculate_similarity_char]
  have hlen : activity_points.length ≠ 0 := by
    simpa [List.length_eq_zero] using hne
  rw [if_neg hlen]
  have hfull : spec_matched_count source_points dev activity_points =
      activity_points.length := by
    unfold spec_matched_count
    rw [List.filter_eq_self.mpr]
    intro p hp
    have h0 := pointRouteDistance_eq_zero_of_liesOn (hall p hp)
    simpa [h0] using hdev
  rw [hfull, div_self (by exact_mod_cast hlen)]

lemma calculate_similarity_reverse (source_points activity_points : List Pt) (dev : ℝ) :
    calculate_similarity source_points activity_points.reverse dev =
      calculate_similarity source_points activity_points dev := by
  rw [calculate_similarity_char, calculate_similarity_char]
  have hcnt : spec_matched_count source_points dev activity_points.reverse =
      spec_matched_count source_points dev activity_points := by
    unfold spec_matched_count
    exact ((activity_points.reverse_perm).filter _).length_eq
  rw [List.length_reverse, hcnt]

lemma verify_verified_iff (cfg : Config) (source_points activity_points : List Pt)
    (activity_distance : ℝ) (hthr : 0 < cfg.similarity_threshold) :
    (verify_activity_against_source cfg source_points activity_points
        activity_distance).verified = true ↔
      (cfg.similarity_threshold ≤
          calculate_similarity source_points activity_points cfg.max_deviation_m ∧
        cfg.min_distance_m ≤ activity_distance) := by
  simp only [verify_activity_against_source]
  by_cases he : activity_points.isEmpty
  · have hnil : activity_points = [] := by simpa using he
    subst hnil
    rw [if_pos he]
    simp only [calculate_similarity_empty]
    constructor
    · intro h
      cases h
    · rintro ⟨h1, -⟩
      linarith
  · rw [if_neg he]
    by_cases hc : cfg.similarity_threshold ≤
        calculate_similarity source_points activity_points cfg.max_deviation_m ∧
        cfg.min_distance_m ≤ activity_distance
    · rw [if_pos hc]
      simpa using hc
    · rw [if_neg hc]
      simpa using hc

lemma verify_reverse (cfg : Config) (source_points activity_points : List Pt) (d : ℝ) :
    verify_activity_against_source cfg source_points activity_points.reverse d =
      verify_activity_against_source cfg source_points activity_points d := by
  simp only [verify_activity_against_source]
  rw [calculate_similarity_reverse]
  by_cases hnil : activity_points = []
  · subst hnil
    rfl
  · have h1 : activity_points.isEmpty = false := by
      simpa [List.isEmpty_iff] using hnil
    have h2 : activity_points.reverse.isEmpty = false := by
      simp [List.isEmpty_iff, hnil]
    rw [h1, h2]

lemma distPointSeg_offset_fst (x y y2 dl : ℝ) :
    distPointSeg (x + dl, y) (x, y) (x, y2) = |dl| := by
  unfold distPointSeg
  by_cases hz : ((x, y2).1 - (x, y).1) ^ 2 + ((x, y2).2 - (x, y).2) ^ 2 = 0
  · rw [if_pos hz]
    have h : ((x + dl, y).1 - (x, y).1) ^ 2 + ((x + dl, y).2 - (x, y).2) ^ 2 = dl ^ 2 := by
      simp
      try ring
    rw [h, Real.sqrt_sq_eq_abs]
  · rw [if_neg hz]
    have hnum : ((x + dl, y).1 - (x, y).1) * ((x, y2).1 - (x, y).1) +
        ((x + dl, y).2 - (x, y).2) * ((x, y2).2 - (x, y).2) = 0 := by
      simp
    rw [hnum, zero_div]
    have hmin : min (1 : ℝ) 0 = 0 := by norm_num
    have hmax : max (0 : ℝ) 0 = 0 := by norm_num
    rw [hmin, hmax]
    have h : ((x + dl, y).1 - ((x, y).1 + 0 * ((x, y2).1 - (x, y).1))) ^ 2 +
        ((x + dl, y).2 - ((x, y).2 + 0 * ((x, y2).2 - (x, y).2))) ^ 2 = dl ^ 2 := by
      simp
      try ring
    rw [h, Real.sqrt_sq_eq_abs]

lemma distPointSeg_offset_snd (x x2 y dl : ℝ) :
    distPointSeg (x, y + dl) (x, y) (x2, y) = |dl| := by
  unfold distPointSeg
  by_cases hz : ((x2, y).1 - (x, y).1) ^ 2 + ((x2, y).2 - (x, y).2) ^ 2 = 0
  · rw [if_pos hz]
    have h : ((x, y + dl).1 - (x, y).1) ^ 2 + ((x, y + dl).2 - (x, y).2) ^ 2 = dl ^ 2 := by
      simp
      try ring
    rw [h, Real.sqrt_sq_eq_abs]
  · rw [if_neg hz]
    have hnum : ((x, y + dl).1 - (x, y).1) * ((x2, y).1 - (x, y).1) +
        ((x, y + dl).2 - (x, y).2) * ((x2, y).2 - (x, y).2) = 0 := by
      simp
    rw [hnum, zero_div]
    have hmin : min (1 : ℝ) 0 = 0 := by norm_num
    have hmax : max (0 : ℝ) 0 = 0 := by norm_num
    rw [hmin, hmax]
    have h : ((x, y + dl).1 - ((x, y).1 + 0 * ((x2, y).1 - (x, y).1))) ^ 2 +
        ((x, y + dl).2 - ((x, y).2 + 0 * ((x2, y).2 - (x, y).2))) ^ 2 = dl ^ 2 := by
      simp
      try ring
    rw [h, Real.sqrt_sq_eq_abs]

lemma pointRouteDistance_same_lat (lat lat2 lon dl : ℝ) :
    pointRouteDistance [(lat, lon), (lat2, lon)] (lat, lon + dl) = 111319.9 * |dl| := by
  unfold pointRouteDistance lineDist
  simp only [List.map_cons, List.map_nil, List.tail_cons, List.zip_cons_cons,
    List.zip_nil_right]
  simp only [List.foldl_nil]
  rw [distPointSeg_offset_fst]
  ring

lemma pointRouteDistance_same_lon (lat lon lon2 dl : ℝ) :
    pointRouteDistance [(lat, lon), (lat, lon2)] (lat + dl, lon) = 111319.9 * |dl| := by
  unfold pointRouteDistance lineDist
  simp only [List.map_cons, List.map_nil, List.tail_cons, List.zip_cons_cons,
    List.zip_nil_right]
  simp only [List.foldl_nil]
  rw [distPointSeg_offset_snd]
  ring

/-! ### Lemmas about the Douglas-Peucker simplification -/

lemma head?_eq_some_headD {l : List Pt} (h : l ≠ []) (d : Pt) :
    l.head? = some (l.headD d) := by
  cases l with
  | nil => exact absurd rfl h
  | cons x xs => rfl

lemma getLast?_eq_some_getLastD {l : List Pt} (h : l ≠ []) (d : Pt) :
    l.getLast? = some (l.getLastD d) := by
  rw [List.getLastD_eq_getLast?]
  cases hg : l.getLast? with
  | none => exact absurd (List.getLast?_eq_none_iff.mp hg) h
  | some x => rfl

lemma maxPerpAux_fst (a b : Pt) (l : List Pt) :
    ∀ (i : ℕ) (best : ℕ × ℝ),
      (maxPerpAux a b l i best).1 = best.1 ∨
      (i ≤ (maxPerpAux a b l i best).1 ∧ (maxPerpAux a b l i best).1 < i + l.length) := by
  induction l with
  | nil =>
      intro i best
      left
      rfl
  | cons q rest ih =>
      intro i best
      simp only [maxPerpAux, List.length_cons]
      by_cases hc : best.2 < distPointSeg q a b
      · rw [if_pos hc]
        rcases ih (i + 1) (i, distPointSeg q a b) with h | h
        · right
          rw [h]
          omega
        · right
          omega
      · rw [if_neg hc]
        rcases ih (i + 1) best with h | h
        · left
          exact h
        · right
          omega

lemma maxPerpAux_zero (a b : Pt) {l : List Pt}
    (h : ∀ q ∈ l, distPointSeg q a b = 0) :
    ∀ (i j : ℕ), maxPerpAux a b l i (j, (0 : ℝ)) = (j, 0) := by
  induction l with
  | nil =>
      intro i j
      rfl
  | cons q rest ih =>
      intro i j
      simp only [maxPerpAux]
      have hq : distPointSeg q a b = 0 := h q (List.mem_cons_self q rest)
      rw [hq, if_neg (lt_irrefl (0 : ℝ))]
      exact ih (fun r hr => h r (List.mem_cons_of_mem q hr)) (i + 1) j

lemma dpRec_split_index {pts : List Pt} (h2 : ¬pts.length ≤ 2) :
    (maxPerpAux (pts.headD (0, 0)) (pts.getLastD (0, 0)) ((pts.drop 1).dropLast) 1
        (0, (0 : ℝ))).1 ≤ pts.length - 2 := by
  rcases maxPerpAux_fst (pts.headD (0, 0)) (pts.getLastD (0, 0)) ((pts.drop 1).dropLast) 1
      (0, (0 : ℝ)) with h | h
  · rw [h]
    omega
  · have hlen : ((pts.drop 1).dropLast).length = pts.length - 1 - 1 := by
      simp
    omega

lemma dpRec_length (fuel : ℕ) (eps : ℝ) :
    ∀ pts : List Pt, (dpRec fuel eps pts).length ≤ pts.length := by
  induction fuel with
  | zero =>
      intro pts
      exact le_refl _
  | succ fuel ih =>
      intro pts
      simp only [dpRec]
      by_cases h2 : pts.length ≤ 2
      · rw [if_pos h2]
      · rw [if_neg h2]
        have hidx := dpRec_split_index h2
        set r := maxPerpAux (pts.headD (0, 0)) (pts.getLastD (0, 0))
          ((pts.drop 1).dropLast) 1 (0, (0 : ℝ)) with hr
        by_cases hgt : eps < r.2
        · rw [if_pos hgt]
          have hL := ih (pts.take (r.1 + 1))
          have hR := ih (pts.drop r.1)
          rw [List.length_append, List.length_dropLast]
          rw [List.length_take] at hL
          rw [List.length_drop] at hR
          omega
        · rw [if_neg hgt]
          simp only [List.length_cons, List.length_nil]
          omega

lemma dpRec_two (fuel : ℕ) (eps : ℝ) :
    ∀ pts : List Pt, 2 ≤ pts.length → 2 ≤ (dpRec fuel eps pts).length := by
  induction fuel with
  | zero =>
      intro pts h
      exact h
  | succ fuel ih =>
      intro pts h
      simp only [dpRec]
      by_cases h2 : pts.length ≤ 2
      · rw [if_pos h2]
        exact h
      · rw [if_neg h2]
        have hidx := dpRec_split_index h2
        set r := maxPerpAux (pts.headD (0, 0)) (pts.getLastD (0, 0))
          ((pts.drop 1).dropLast) 1 (0, (0 : ℝ)) with hr
        by_cases hgt : eps < r.2
        · rw [if_pos hgt]
          have hR := ih (pts.drop r.1) (by rw [List.length_drop]; omega)
          rw [List.length_append]
          omega
        · rw [if_neg hgt]
          simp

lemma head?_take_succ (pts : List Pt) (n : ℕ) : (pts.take (n + 1)).head? = pts.head? := by
  cases pts <;> simp

lemma dropLast_eq_nil_of_le_one {l : List Pt} (h : l.length ≤ 1) : l.dropLast = [] := by
  cases l with
  | nil => rfl
  | cons x xs =>
      cases xs with
      | nil => rfl
      | cons y ys => simp at h

lemma head?_dropLast_append {l : List Pt} (h : 2 ≤ l.length) (l₂ : List Pt) :
    (l.dropLast ++ l₂).head? = l.head? := by
  rcases l with _ | ⟨x, _ | ⟨y, xs⟩⟩
  · simp at h
  · simp at h
  · simp

lemma getLast?_append_right {l₁ l₂ : List Pt} (h : l₂ ≠ []) :
    (l₁ ++ l₂).getLast? = l₂.getLast? := by
  rw [List.getLast?_append]
  cases hg : l₂.getLast? with
  | none => exact absurd (List.getLast?_eq_none_iff.mp hg) h
  | some x => rfl

lemma getLast?_drop_of_lt {pts : List Pt} {n : ℕ} (h : n < pts.length) :
    (pts.drop n).getLast? = pts.getLast? := by
  have hne : pts.drop n ≠ [] := by
    intro hnil
    have hl : (pts.drop n).length = pts.length - n := List.length_drop n pts
    rw [hnil] at hl
    simp at hl
    omega
  conv_rhs => rw [← List.take_append_drop n pts]
  rw [getLast?_append_right hne]

lemma dpRec_head? (fuel : ℕ) (eps : ℝ) :
    ∀ pts : List Pt, (dpRec fuel eps pts).head? = pts.head? := by
  induction fuel with
  | zero =>
      intro pts
      rfl
  | succ fuel ih =>
      intro pts
      simp only [dpRec]
      by_cases h2 : pts.length ≤ 2
      · rw [if_pos h2]
      · rw [if_neg h2]
        have hidx := dpRec_split_index h2
        set r := maxPerpAux (pts.headD (0, 0)) (pts.getLastD (0, 0))
          ((pts.drop 1).dropLast) 1 (0, (0 : ℝ)) with hr
        by_cases hgt : eps < r.2
        · rw [if_pos hgt]
          by_cases hi : r.1 = 0
          · have hL1 : (dpRec fuel eps (pts.take (r.1 + 1))).length ≤ 1 := by
              have := dpRec_length fuel eps (pts.take (r.1 + 1))
              rw [List.length_take] at this
              omega
            rw [dropLast_eq_nil_of_le_one hL1, List.nil_append, ih, hi, List.drop_zero]
          · have hLlen : 2 ≤ (pts.take (r.1 + 1)).length := by
              rw [List.length_take]
              omega
            have hL2 := dpRec_two fuel eps _ hLlen
            rw [head?_dropLast_append hL2, ih]
            exact head?_take_succ pts r.1
        · rw [if_neg hgt]
          have hne : pts ≠ [] := by
            intro hnil
            rw [hnil] at h2
            simp at h2
          rw [head?_eq_some_headD hne (0, 0)]
          rfl

lemma dpRec_getLast? (fuel : ℕ) (eps : ℝ) :
    ∀ pts : List Pt, (dpRec fuel eps pts).getLast? = pts.getLast? := by
  induction fuel with
  | zero =>
      intro pts
      rfl
  | succ fuel ih =>
      intro pts
      simp only [dpRec]
      by_cases h2 : pts.length ≤ 2
      · rw [if_pos h2]
      · rw [if_neg h2]
        have hidx := dpRec_split_index h2
        set r := maxPerpAux (pts.headD (0, 0)) (pts.getLastD (0, 0))
          ((pts.drop 1).dropLast) 1 (0, (0 : ℝ)) with hr
        by_cases hgt : eps < r.2
        · rw [if_pos hgt]
          have hRlen : 2 ≤ (dpRec fuel eps (pts.drop r.1)).length := by
            apply dpRec_two
            rw [List.length_drop]
            omega
          have hRne : dpRec fuel eps (pts.drop r.1) ≠ [] := by
            intro hnil
            rw [hnil] at hRlen
            simp at hRlen
          rw [getLast?_append_right hRne, ih]
          exact getLast?_drop_of_lt (by omega)
        · rw [if_neg hgt]
          have hne : pts ≠ [] := by
            intro hnil
            rw [hnil] at h2
            simp at h2
          rw [getLast?_eq_some_getLastD hne (0, 0)]
          rfl

lemma simplify_points_straight {eps : ℝ} {pts : List Pt}
    (heps : 0 ≤ eps) (h2 : 2 ≤ pts.length)
    (hall : ∀ p ∈ pts, SegMem p (pts.headD (0, 0)) (pts.getLastD (0, 0))) :
    simplify_points eps pts = [pts.headD (0, 0), pts.getLastD (0, 0)] := by
  unfold simplify_points
  obtain ⟨fuel, hfuel⟩ : ∃ f, pts.length = f + 1 := ⟨pts.length - 1, by omega⟩
  rw [hfuel]
  simp only [dpRec]
  by_cases hle : pts.length ≤ 2
  · rw [if_pos hle]
    rcases pts with _ | ⟨x, _ | ⟨y, _ | ⟨z, zs⟩⟩⟩
    · simp at h2
    · simp at h2
    · rfl
    · simp at hle
  · rw [if_neg hle]
    have hz : ∀ q ∈ (pts.drop 1).dropLast,
        distPointSeg q (pts.headD (0, 0)) (pts.getLastD (0, 0)) = 0 := by
      intro q hq
      have hmem : q ∈ pts :=
        ((List.dropLast_sublist _).trans (List.drop_sublist 1 pts)).subset hq
      exact distPointSeg_of_segMem (hall q hmem)
    rw [maxPerpAux_zero _ _ hz 1 0]
    rw [if_neg (not_lt.mpr heps)]

/-! ### Lemmas about the reconciliation pass -/

lemma findPart_mem_id {ps : List Participant} {i : ℕ} {p : Participant}
    (h : findPart ps i = some p) : p.id = i := by
  have := List.find?_some h
  simpa using this

lemma findCredL_mem_pid {cs : List Credential} {i : ℕ} {c : Credential}
    (h : findCredL cs i = some c) : c.pid = i := by
  have := List.find?_some h
  simpa using this

lemma setCursor_preserves_id (i v : ℕ) (p : Participant) :
    (if p.id == i then { p with cursor := v } else p).id = p.id := by
  split <;> rfl

lemma findPart_setCursor (ps : List Participant) (i v j : ℕ) :
    findPart (setCursor i v ps) j =
      (findPart ps j).map (fun p => if p.id == i then { p with cursor := v } else p) := by
  induction ps with
  | nil => rfl
  | cons p ps ih =>
      simp only [setCursor, List.map_cons, findPart, List.find?]
      rw [setCursor_preserves_id]
      cases hc : p.id == j with
      | true => rfl
      | false => exact ih

lemma setInvalid_preserves_pid (i : ℕ) (c : Credential) :
    (if c.pid == i then { c with state := CredState.invalid } else c).pid = c.pid := by
  split <;> rfl

lemma findCredL_setInvalid (cs : List Credential) (i j : ℕ) :
    findCredL (setInvalid i cs) j =
      (findCredL cs j).map
        (fun c => if c.pid == i then { c with state := CredState.invalid } else c) := by
  induction cs with
  | nil => rfl
  | cons c cs ih =>
      simp only [setInvalid, List.map_cons, findCredL, List.find?]
      rw [setInvalid_preserves_pid]
      cases hc : c.pid == j with
      | true => rfl
      | false => exact ih

lemma findPart_setCursor_ne {ps : List Participant} {i v j : ℕ} (hne : j ≠ i) :
    findPart (setCursor i v ps) j = findPart ps j := by
  rw [findPart_setCursor]
  cases hf : findPart ps j with
  | none => rfl
  | some q =>
      have hq : q.id = j := findPart_mem_id hf
      simp [hq, hne]

lemma findCredL_setInvalid_ne {cs : List Credential} {i j : ℕ} (hne : j ≠ i) :
    findCredL (setInvalid i cs) j = findCredL cs j := by
  rw [findCredL_setInvalid]
  cases hf : findCredL cs j with
  | none => rfl
  | some c =>
      have hc : c.pid = j := findCredL_mem_pid hf
      simp [hc, hne]

lemma participant_eta_cursor (p : Participant) :
    ({ p with cursor := p.cursor } : Participant) = p := rfl

lemma findPart_setCursor_same {ps : List Participant} {i : ℕ} {p : Participant}
    (hfp : findPart ps i = some p) (j : ℕ) :
    findPart (setCursor i p.cursor ps) j = findPart ps j := by
  by_cases hj : j = i
  · subst hj
    rw [findPart_setCursor, hfp]
    have hid : (p.id == j) = true := by simp [findPart_mem_id hfp]
    simp only [Option.map_some']
    rw [if_pos hid, participant_eta_cursor]
  · exact findPart_setCursor_ne hj

lemma map_id_setCursor (i v : ℕ) (ps : List Participant) :
    (setCursor i v ps).map (fun p => p.id) = ps.map (fun p => p.id) := by
  unfold setCursor
  rw [List.map_map]
  apply List.map_congr_left
  intro p hp
  simp only [Function.comp_apply]
  rw [setCursor_preserves_id]

lemma processActivity_participants (env : Env) (i : ℕ) (db : Db) (a : ActivitySummary) :
    (processActivity env i db a).participants = db.participants := by
  simp only [processActivity]
  split <;> rfl

lemma processActivity_credentials (env : Env) (i : ℕ) (db : Db) (a : ActivitySummary) :
    (processActivity env i db a).credentials = db.credentials := by
  simp only [processActivity]
  split <;> rfl

lemma processActivity_attempts_append (env : Env) (i : ℕ) (db : Db) (a : ActivitySummary) :
    ∃ ts : List Attempt, (processActivity env i db a).attempts = db.attempts ++ ts ∧
      ∀ x ∈ ts, x.pid = i := by
  simp only [processActivity]
  split
  · exact ⟨[], by simp, by simp⟩
  · exact ⟨[⟨i, a.extId, (env.matcher a.points a.distance).verified,
      (env.matcher a.points a.distance).similarity_score⟩], rfl, by simp⟩

lemma processActivity_audit_append (env : Env) (i : ℕ) (db : Db) (a : ActivitySummary) :
    ∃ au : List AuditEntry, (processActivity env i db a).audit = db.audit ++ au ∧
      ∀ x ∈ au, x.pid = i := by
  simp only [processActivity]
  split
  · exact ⟨[], by simp, by simp⟩
  · split
    · exact ⟨[⟨i, AuditKind.approval⟩], rfl, by simp⟩
    · exact ⟨[], by simp, by simp⟩

lemma foldAct_participants (env : Env) (i : ℕ) :
    ∀ (l : List ActivitySummary) (db : Db),
      (l.foldl (processActivity env i) db).participants = db.participants := by
  intro l
  induction l with
  | nil => intro db; rfl
  | cons a l ih =>
      intro db
      rw [List.foldl_cons, ih, processActivity_participants]

lemma foldAct_credentials (env : Env) (i : ℕ) :
    ∀ (l : List ActivitySummary) (db : Db),
      (l.foldl (processActivity env i) db).credentials = db.credentials := by
  intro l
  induction l with
  | nil => intro db; rfl
  | cons a l ih =>
      intro db
      rw [List.foldl_cons, ih, processActivity_credentials]

lemma foldAct_attempts_append (env : Env) (i : ℕ) :
    ∀ (l : List ActivitySummary) (db : Db),
      ∃ ts : List Attempt, (l.foldl (processActivity env i) db).attempts = db.attempts ++ ts ∧
        ∀ x ∈ ts, x.pid = i := by
  intro l
  induction l with
  | nil => exact fun db => ⟨[], by simp, by simp⟩
  | cons a l ih =>
      intro db
      rw [List.foldl_cons]
      obtain ⟨ts₁, h1, h2⟩ := processActivity_attempts_append env i db a
      obtain ⟨ts₂, h3, h4⟩ := ih (processActivity env i db a)
      refine ⟨ts₁ ++ ts₂, ?_, ?_⟩
      · rw [h3, h1, List.append_assoc]
      · intro x hx
        rcases List.mem_append.mp hx with h | h
        · exact h2 x h
        · exact h4 x h

lemma foldAct_audit_append (env : Env) (i : ℕ) :
    ∀ (l : List ActivitySummary) (db : Db),
      ∃ au : List AuditEntry, (l.foldl (processActivity env i) db).audit = db.audit ++ au ∧
        ∀ x ∈ au, x.pid = i := by
  intro l
  induction l with
  | nil => exact fun db => ⟨[], by simp, by simp⟩
  | cons a l ih =>
      intro db
      rw [List.foldl_cons]
      obtain ⟨au₁, h1, h2⟩ := processActivity_audit_append env i db a
      obtain ⟨au₂, h3, h4⟩ := ih (processActivity env i db a)
      refine ⟨au₁ ++ au₂, ?_, ?_⟩
      · rw [h3, h1, List.append_assoc]
      · intro x hx
        rcases List.mem_append.mp hx with h | h
        · exact h2 x h
        · exact h4 x h

lemma foldl_max_init_le (l : List ActivitySummary) :
    ∀ n : ℕ, n ≤ l.foldl (fun m a => max m a.extId) n := by
  induction l with
  | nil => intro n; exact le_refl n
  | cons a l ih =>
      intro n
      rw [List.foldl_cons]
      exact le_trans (le_max_left n a.extId) (ih _)

lemma foldl_max_mem_le {a : ActivitySummary} {l : List ActivitySummary} (h : a ∈ l) :
    ∀ n : ℕ, a.extId ≤ l.foldl (fun m a => max m a.extId) n := by
  induction l with
  | nil => cases h
  | cons b l ih =>
      intro n
      rw [List.foldl_cons]
      rcases List.mem_cons.mp h with h' | h'
      · subst h'
        exact le_trans (le_max_right n a.extId) (foldl_max_init_le l _)
      · exact ih h' _

lemma advanceCursor_init_le (p : Participant) (cands : List ActivitySummary) :
    p.cursor ≤ advanceCursor p cands :=
  foldl_max_init_le cands p.cursor

lemma advanceCursor_mem_le {a : ActivitySummary} {cands : List ActivitySummary}
    (h : a ∈ cands) (p : Participant) : a.extId ≤ advanceCursor p cands :=
  foldl_max_mem_le h p.cursor

lemma processActive_participants (env : Env) (i : ℕ) (p : Participant) (db : Db) :
    (processActive env i p db).participants =
      setCursor i (advanceCursor p (candidates env p)) db.participants := by
  simp only [processActive]
  rw [foldAct_participants]

lemma processActive_credentials (env : Env) (i : ℕ) (p : Participant) (db : Db) :
    (processActive env i p db).credentials = db.credentials := by
  simp only [processActive]
  rw [foldAct_credentials]

lemma processActive_attempts_append (env : Env) (i : ℕ) (p : Participant) (db : Db) :
    ∃ ts : List Attempt, (processActive env i p db).attempts = db.attempts ++ ts ∧
      ∀ x ∈ ts, x.pid = i := by
  simp only [processActive]
  exact foldAct_attempts_append env i (candidates env p) db

lemma processActive_audit_append (env : Env) (i : ℕ) (p : Participant) (db : Db) :
    ∃ au : List AuditEntry, (processActive env i p db).audit = db.audit ++ au ∧
      ∀ x ∈ au, x.pid = i := by
  simp only [processActive]
  exact foldAct_audit_append env i (candidates env p) db

lemma processActive_approved (env : Env) (i : ℕ) (p : Participant) (db : Db) :
    (processActive env i p db).approved =
      ((candidates env p).foldl (processActivity env i) db).approved := rfl

lemma processActive_leaderboard (env : Env) (i : ℕ) (p : Participant) (db : Db) :
    (processActive env i p db).leaderboard =
      ((candidates env p).foldl (processActivity env i) db).leaderboard := rfl

lemma stepParticipant_none {env : Env} {db : Db} {i : ℕ}
    (hfp : findPart db.participants i = none) : stepParticipant env db i = db := by
  simp only [stepParticipant, hfp]

lemma stepParticipant_inactive {env : Env} {db : Db} {i : ℕ} {p : Participant}
    (hfp : findPart db.participants i = some p) (hst : p.status ≠ PStatus.active) :
    stepParticipant env db i = db := by
  simp only [stepParticipant, hfp, if_neg hst]

lemma stepParticipant_nocred {env : Env} {db : Db} {i : ℕ} {p : Participant}
    (hfp : findPart db.participants i = some p) (hst : p.status = PStatus.active)
    (hfc : findCredL db.credentials i = none) : stepParticipant env db i = db := by
  simp only [stepParticipant, hfp, if_pos hst, hfc]

lemma stepParticipant_invalid {env : Env} {db : Db} {i : ℕ} {p : Participant} {c : Credential}
    (hfp : findPart db.participants i = some p) (hst : p.status = PStatus.active)
    (hfc : findCredL db.credentials i = some c) (hinv : c.state = CredState.invalid) :
    stepParticipant env db i =
      { db with audit := db.audit ++ [⟨i, AuditKind.authError⟩] } := by
  simp only [stepParticipant, hfp, if_pos hst, hfc, if_pos hinv]

lemma stepParticipant_refresh_fail {env : Env} {db : Db} {i : ℕ} {p : Participant}
    {c : Credential}
    (hfp : findPart db.participants i = some p) (hst : p.status = PStatus.active)
    (hfc : findCredL db.credentials i = some c) (hinv : c.state ≠ CredState.invalid)
    (hrf : env.refreshOk i = false) :
    stepParticipant env db i =
      { db with credentials := setInvalid i db.credentials,
                audit := db.audit ++ [⟨i, AuditKind.authError⟩] } := by
  simp only [stepParticipant, hfp, if_pos hst, hfc, if_neg hinv, hrf]
  simp

lemma stepParticipant_refresh_ok {env : Env} {db : Db} {i : ℕ} {p : Participant}
    {c : Credential}
    (hfp : findPart db.participants i = some p) (hst : p.status = PStatus.active)
    (hfc : findCredL db.credentials i = some c) (hinv : c.state ≠ CredState.invalid)
    (hrf : env.refreshOk i = true) :
    stepParticipant env db i = processActive env i p db := by
  simp only [stepParticipant, hfp, if_pos hst, hfc, if_neg hinv, hrf]
  simp

lemma step_cases (env : Env) (db : Db) (i : ℕ) :
    stepParticipant env db i = db ∨
    stepParticipant env db i = { db with audit := db.audit ++ [⟨i, AuditKind.authError⟩] } ∨
    stepParticipant env db i =
      { db with credentials := setInvalid i db.credentials,
                audit := db.audit ++ [⟨i, AuditKind.authError⟩] } ∨
    ∃ p, findPart db.participants i = some p ∧
      stepParticipant env db i = processActive env i p db := by
  cases hfp : findPart db.participants i with
  | none => exact Or.inl (stepParticipant_none hfp)
  | some p =>
      by_cases hst : p.status = PStatus.active
      · cases hfc : findCredL db.credentials i with
        | none => exact Or.inl (stepParticipant_nocred hfp hst hfc)
        | some c =>
            by_cases hinv : c.state = CredState.invalid
            · exact Or.inr (Or.inl (stepParticipant_invalid hfp hst hfc hinv))
            · cases hrf : env.refreshOk i with
              | true =>
                  exact Or.inr (Or.inr (Or.inr
                    ⟨p, rfl, stepParticipant_refresh_ok hfp hst hfc hinv hrf⟩))
              | false =>
                  exact Or.inr (Or.inr (Or.inl
                    (stepParticipant_refresh_fail hfp hst hfc hinv hrf)))
      · exact Or.inl (stepParticipant_inactive hfp hst)

lemma step_participants_shape (env : Env) (db : Db) (i : ℕ) :
    (stepParticipant env db i).participants = db.participants ∨
    ∃ v, (stepParticipant env db i).participants = setCursor i v db.participants := by
  rcases step_cases env db i with h | h | h | ⟨p, hp, h⟩ <;> rw [h]
  · exact Or.inl rfl
  · exact Or.inl rfl
  · exact Or.inl rfl
  · exact Or.inr ⟨_, processActive_participants env i p db⟩

lemma step_credentials_shape (env : Env) (db : Db) (i : ℕ) :
    (stepParticipant env db i).credentials = db.credentials ∨
    (stepParticipant env db i).credentials = setInvalid i db.credentials := by
  rcases step_cases env db i with h | h | h | ⟨p, hp, h⟩ <;> rw [h]
  · exact Or.inl rfl
  · exact Or.inl rfl
  · exact Or.inr rfl
  · exact Or.inl (processActive_credentials env i p db)

lemma step_attempts_append (env : Env) (db : Db) (i : ℕ) :
    ∃ ts : List Attempt, (stepParticipant env db i).attempts = db.attempts ++ ts ∧
      ∀ x ∈ ts, x.pid = i := by
  rcases step_cases env db i with h | h | h | ⟨p, hp, h⟩ <;> rw [h]
  · exact ⟨[], by simp, by simp⟩
  · exact ⟨[], by simp, by simp⟩
  · exact ⟨[], by simp, by simp⟩
  · exact processActive_attempts_append env i p db

lemma step_audit_append (env : Env) (db : Db) (i : ℕ) :
    ∃ au : List AuditEntry, (stepParticipant env db i).audit = db.audit ++ au ∧
      ∀ x ∈ au, x.pid = i := by
  rcases step_cases env db i with h | h | h | ⟨p, hp, h⟩ <;> rw [h]
  · exact ⟨[], by simp, by simp⟩
  · exact ⟨[⟨i, AuditKind.authError⟩], rfl, by simp⟩
  · exact ⟨[⟨i, AuditKind.authError⟩], rfl, by simp⟩
  · exact processActive_audit_append env i p db

lemma findPart_step_ne (env : Env) (db : Db) {i j : ℕ} (hne : j ≠ i) :
    findPart (stepParticipant env db i).participants j = findPart db.participants j := by
  rcases step_participants_shape env db i with h | ⟨v, h⟩ <;> rw [h]
  exact findPart_setCursor_ne hne

lemma findCredL_step_ne (env : Env) (db : Db) {i j : ℕ} (hne : j ≠ i) :
    findCredL (stepParticipant env db i).credentials j = findCredL db.credentials j := by
  rcases step_credentials_shape env db i with h | h <;> rw [h]
  exact findCredL_setInvalid_ne hne

lemma attemptsFor_step_ne (env : Env) (db : Db) {i j : ℕ} (hne : j ≠ i) :
    attemptsFor (stepParticipant env db i) j = attemptsFor db j := by
  obtain ⟨ts, h1, h2⟩ := step_attempts_append env db i
  unfold attemptsFor
  rw [h1, List.filter_append]
  have hnil : ts.filter (fun t => t.pid == j) = [] := by
    apply List.filter_eq_nil_iff.mpr
    intro x hx
    simp only [h2 x hx, beq_iff_eq]
    exact fun h => hne h.symm
  rw [hnil, List.append_nil]

lemma authErrCount_step_ne (env : Env) (db : Db) {i j : ℕ} (hne : j ≠ i) :
    authErrCount (stepParticipant env db i) j = authErrCount db j := by
  obtain ⟨au, h1, h2⟩ := step_audit_append env db i
  unfold authErrCount
  rw [h1, List.filter_append]
  have hnil : au.filter (fun e2 => e2.pid == j && e2.kind == AuditKind.authError) = [] := by
    apply List.filter_eq_nil_iff.mpr
    intro x hx
    simp only [h2 x hx, Bool.and_eq_true, beq_iff_eq]
    exact fun hc => hne hc.1.symm
  rw [hnil, List.append_nil]

lemma hasAttempt_of_append {db db' : Db} {j e : ℕ} {ts : List Attempt}
    (happ : db'.attempts = db.attempts ++ ts) (h : hasAttempt db j e = true) :
    hasAttempt db' j e = true := by
  unfold hasAttempt at *
  rw [happ, List.any_append, h]
  rfl

lemma hasAttempt_step_mono (env : Env) (db : Db) (i : ℕ) {j e : ℕ}
    (h : hasAttempt db j e = true) : hasAttempt (stepParticipant env db i) j e = true := by
  obtain ⟨ts, h1, -⟩ := step_attempts_append env db i
  exact hasAttempt_of_append h1 h

lemma settled_congr {env : Env} {db db' : Db} {i : ℕ}
    (h1 : findPart db'.participants i = findPart db.participants i)
    (h2 : findCredL db'.credentials i = findCredL db.credentials i)
    (h : Settled env db i) : Settled env db' i := by
  unfold Settled at *
  rw [h1, h2]
  exact h

lemma settled_of_none {env : Env} {db : Db} {i : ℕ}
    (hfp : findPart db.participants i = none) : Settled env db i := by
  unfold Settled
  rw [hfp]
  trivial

lemma settled_of_inactive {env : Env} {db : Db} {i : ℕ} {p : Participant}
    (hfp : findPart db.participants i = some p) (hst : p.status ≠ PStatus.active) :
    Settled env db i := by
  unfold Settled
  rw [hfp]
  exact Or.inl hst

lemma settled_of_nocred {env : Env} {db : Db} {i : ℕ} {p : Participant}
    (hfp : findPart db.participants i = some p)
    (hfc : findCredL db.credentials i = none) : Settled env db i := by
  unfold Settled
  rw [hfp, hfc]
  exact Or.inr trivial

lemma settled_of_invalid {env : Env} {db : Db} {i : ℕ} {p : Participant} {c : Credential}
    (hfp : findPart db.participants i = some p)
    (hfc : findCredL db.credentials i = some c)
    (hinv : c.state = CredState.invalid) : Settled env db i := by
  unfold Settled
  rw [hfp, hfc]
  exact Or.inr (Or.inl hinv)

lemma settled_of_covered {env : Env} {db : Db} {i : ℕ} {p : Participant} {c : Credential}
    (hfp : findPart db.participants i = some p)
    (hfc : findCredL db.credentials i = some c)
    (hrf : env.refreshOk i = true)
    (hcov : ∀ a ∈ env.activities i, a.isBike = true → a.extId ≤ p.cursor) :
    Settled env db i := by
  unfold Settled
  rw [hfp, hfc]
  exact Or.inr (Or.inr ⟨hrf, hcov⟩)

lemma settled_elim {env : Env} {db : Db} {i : ℕ} {p : Participant} {c : Credential}
    (hfp : findPart db.participants i = some p)
    (hst : p.status = PStatus.active)
    (hfc : findCredL db.credentials i = some c)
    (hinv : c.state ≠ CredState.invalid)
    (h : Settled env db i) :
    env.refreshOk i = true ∧
      ∀ a ∈ env.activities i, a.isBike = true → a.extId ≤ p.cursor := by
  unfold Settled at h
  rw [hfp, hfc] at h
  rcases h with h | h | h
  · exact absurd hst h
  · exact absurd h hinv
  · exact h

lemma settled_after_step (env : Env) (db : Db) (i : ℕ) :
    Settled env (stepParticipant env db i) i := by
  cases hfp : findPart db.participants i with
  | none =>
      rw [stepParticipant_none hfp]
      exact settled_of_none hfp
  | some p =>
      by_cases hst : p.status = PStatus.active
      · cases hfc : findCredL db.credentials i with
        | none =>
            rw [stepParticipant_nocred hfp hst hfc]
            exact settled_of_nocred hfp hfc
        | some c =>
            by_cases hinv : c.state = CredState.invalid
            · rw [stepParticipant_invalid hfp hst hfc hinv]
              exact settled_of_invalid hfp hfc hinv
            · cases hrf : env.refreshOk i with
              | false =>
                  rw [stepParticipant_refresh_fail hfp hst hfc hinv hrf]
                  refine settled_of_invalid (c := { c with state := CredState.invalid })
                    hfp ?_ rfl
                  show findCredL (setInvalid i db.credentials) i =
                    some { c with state := CredState.invalid }
                  rw [findCredL_setInvalid, hfc]
                  simp only [Option.map_some']
                  rw [if_pos (by simp [findCredL_mem_pid hfc])]
              | true =>
                  rw [stepParticipant_refresh_ok hfp hst hfc hinv hrf]
                  have hid : p.id = i := findPart_mem_id hfp
                  have hfp2 : findPart (processActive env i p db).participants i =
                      some { p with cursor := advanceCursor p (candidates env p) } := by
                    rw [processActive_participants, findPart_setCursor, hfp]
                    simp only [Option.map_some']
                    rw [if_pos (by simp [hid])]
                  have hfc2 : findCredL (processActive env i p db).credentials i = some c := by
                    rw [processActive_credentials]
                    exact hfc
                  refine settled_of_covered hfp2 hfc2 hrf ?_
                  intro a ha hb
                  by_cases hcur : p.cursor < a.extId
                  · have hmem : a ∈ candidates env p := by
                      unfold candidates
                      rw [hid]
                      exact List.mem_filter.mpr ⟨ha, by simp [hb, hcur]⟩
                    exact advanceCursor_mem_le hmem p
                  · exact le_trans (not_lt.mp hcur) (advanceCursor_init_le p _)
      · rw [stepParticipant_inactive hfp hst]
        exact settled_of_inactive hfp hst

lemma step_on_settled (env : Env) (db : Db) (i : ℕ) (hS : Settled env db i) :
    (stepParticipant env db i).attempts = db.attempts ∧
    (stepParticipant env db i).approved = db.approved ∧
    (stepParticipant env db i).leaderboard = db.leaderboard ∧
    ∀ j, Settled env db j → Settled env (stepParticipant env db i) j := by
  cases hfp : findPart db.participants i with
  | none =>
      rw [stepParticipant_none hfp]
      exact ⟨rfl, rfl, rfl, fun j hj => hj⟩
  | some p =>
      by_cases hst : p.status = PStatus.active
      · cases hfc : findCredL db.credentials i with
        | none =>
            rw [stepParticipant_nocred hfp hst hfc]
            exact ⟨rfl, rfl, rfl, fun j hj => hj⟩
        | some c =>
            by_cases hinv : c.state = CredState.invalid
            · rw [stepParticipant_invalid hfp hst hfc hinv]
              exact ⟨rfl, rfl, rfl, fun j hj => settled_congr rfl rfl hj⟩
            · obtain ⟨hrf, hcov⟩ := settled_elim hfp hst hfc hinv hS
              rw [stepParticipant_refresh_ok hfp hst hfc hinv hrf]
              have hid : p.id = i := findPart_mem_id hfp
              have hcand : candidates env p = [] := by
                unfold candidates
                rw [hid]
                apply List.filter_eq_nil_iff.mpr
                intro a ha
                simp only [Bool.and_eq_true, decide_eq_true_eq, not_and]
                intro hb
                exact not_lt.mpr (hcov a ha hb)
              have heq : processActive env i p db =
                  { db with participants := setCursor i p.cursor db.participants } := by
                simp only [processActive, hcand, List.foldl_nil]
                rfl
              rw [heq]
              exact ⟨rfl, rfl, rfl, fun j hj =>
                settled_congr (findPart_setCursor_same hfp j) rfl hj⟩
      · rw [stepParticipant_inactive hfp hst]
        exact ⟨rfl, rfl, rfl, fun j hj => hj⟩

lemma settled_step_any (env : Env) {db : Db} {j : ℕ} (hj : Settled env db j) (k : ℕ) :
    Settled env (stepParticipant env db k) j := by
  by_cases hkj : k = j
  · subst hkj
    exact (step_on_settled env db k hj).2.2.2 _ hj
  · exact settled_congr (findPart_step_ne env db (fun h => hkj h.symm))
      (findCredL_step_ne env db (fun h => hkj h.symm)) hj

lemma settled_foldl (env : Env) (L : List ℕ) :
    ∀ (db : Db) (j : ℕ), Settled env db j →
      Settled env (L.foldl (stepParticipant env) db) j := by
  induction L with
  | nil => exact fun db j hj => hj
  | cons k L ih =>
      intro db j hj
      rw [List.foldl_cons]
      exact ih _ j (settled_step_any env hj k)

lemma settled_foldl_mem (env : Env) (L : List ℕ) :
    ∀ (db : Db) (j : ℕ), j ∈ L →
      Settled env (L.foldl (stepParticipant env) db) j := by
  induction L with
  | nil => intro db j hj; cases hj
  | cons k L ih =>
      intro db j hj
      rw [List.foldl_cons]
      rcases List.mem_cons.mp hj with h | h
      · subst h
        exact settled_foldl env L _ j (settled_after_step env db j)
      · exact ih _ j h

lemma settled_after_runPass (env : Env) (db : Db) :
    ∀ j ∈ db.participants.map (fun p => p.id), Settled env (runPass env db) j :=
  fun j hj => settled_foldl_mem env _ db j hj

lemma ids_step (env : Env) (db : Db) (i : ℕ) :
    (stepParticipant env db i).participants.map (fun p => p.id) =
      db.participants.map (fun p => p.id) := by
  rcases step_participants_shape env db i with h | ⟨v, h⟩ <;> rw [h]
  exact map_id_setCursor i v db.participants

lemma ids_foldl (env : Env) (L : List ℕ) :
    ∀ db : Db, ((L.foldl (stepParticipant env) db).participants).map (fun p => p.id) =
      db.participants.map (fun p => p.id) := by
  induction L with
  | nil => intro db; rfl
  | cons k L ih =>
      intro db
      rw [List.foldl_cons, ih, ids_step]

lemma ids_runPass (env : Env) (db : Db) :
    (runPass env db).participants.map (fun p => p.id) =
      db.participants.map (fun p => p.id) :=
  ids_foldl env _ db

lemma foldl_settled_noop (env : Env) (L₀ : List ℕ) :
    ∀ (L : List ℕ) (d : Db), (∀ j ∈ L, j ∈ L₀) → (∀ j ∈ L₀, Settled env d j) →
      ((L.foldl (stepParticipant env) d).attempts = d.attempts ∧
       (L.foldl (stepParticipant env) d).approved = d.approved ∧
       (L.foldl (stepParticipant env) d).leaderboard = d.leaderboard) := by
  intro L
  induction L with
  | nil => exact fun d _ _ => ⟨rfl, rfl, rfl⟩
  | cons k L ih =>
      intro d hsub hall
      rw [List.foldl_cons]
      have hk : Settled env d k := hall k (hsub k (List.mem_cons_self k L))
      obtain ⟨h1, h2, h3, h4⟩ := step_on_settled env d k hk
      obtain ⟨g1, g2, g3⟩ := ih (stepParticipant env d k)
        (fun j hj => hsub j (List.mem_cons_of_mem k hj))
        (fun j hj => h4 j (hall j hj))
      exact ⟨g1.trans h1, g2.trans h2, g3.trans h3⟩

lemma runPass_noop_of_settled (env : Env) (db2 : Db)
    (hall : ∀ j ∈ db2.participants.map (fun p => p.id), Settled env db2 j) :
    (runPass env db2).attempts = db2.attempts ∧
    (runPass env db2).approved = db2.approved ∧
    (runPass env db2).leaderboard = db2.leaderboard := by
  unfold runPass
  exact foldl_settled_noop env (db2.participants.map (fun p => p.id))
    (db2.participants.map (fun p => p.id)) db2 (fun j hj => hj) hall

lemma runPass_idempotent (env : Env) (db : Db) :
    (runPass env (runPass env db)).attempts = (runPass env db).attempts ∧
    (runPass env (runPass env db)).approved = (runPass env db).approved ∧
    (runPass env (runPass env db)).leaderboard = (runPass env db).leaderboard := by
  apply runPass_noop_of_settled
  intro j hj
  rw [ids_runPass] at hj
  exact settled_after_runPass env db j hj

lemma processActivity_skip {env : Env} {i : ℕ} {db : Db} {a : ActivitySummary}
    (h : hasAttempt db i a.extId = true) : processActivity env i db a = db := by
  simp [processActivity, h]

lemma processActivity_new_attempts {env : Env} {i : ℕ} {db : Db} {a : ActivitySummary}
    (h : hasAttempt db i a.extId = false) :
    (processActivity env i db a).attempts =
      db.attempts ++ [⟨i, a.extId, (env.matcher a.points a.distance).verified,
        (env.matcher a.points a.distance).similarity_score⟩] := by
  simp [processActivity, h]

lemma UA_congr {db db' : Db} (h : db'.attempts = db.attempts) (hU : UniqueAttempts db) :
    UniqueAttempts db' := by
  intro j e
  unfold attemptKeyCount
  rw [h]
  exact hU j e

lemma UA_processActivity (env : Env) (i : ℕ) (db : Db) (a : ActivitySummary)
    (h : UniqueAttempts db) : UniqueAttempts (processActivity env i db a) := by
  cases hH : hasAttempt db i a.extId with
  | true =>
      rw [processActivity_skip hH]
      exact h
  | false =>
      intro j e
      unfold attemptKeyCount
      rw [processActivity_new_attempts hH, List.filter_append]
      by_cases hkey : j = i ∧ e = a.extId
      · obtain ⟨h1, h2⟩ := hkey
        subst h1
        subst h2
        have hfl : db.attempts.filter (fun t => t.pid == j && t.extId == a.extId) = [] := by
          apply List.filter_eq_nil_iff.mpr
          intro t ht hc
          have hany : db.attempts.any (fun t => t.pid == j && t.extId == a.extId) = true :=
            List.any_eq_true.mpr ⟨t, ht, hc⟩
          unfold hasAttempt at hH
          rw [hany] at hH
          cases hH
        rw [hfl, List.nil_append]
        exact le_trans (List.length_filter_le _ _) (by simp)
      · have hfl : [(⟨i, a.extId, (env.matcher a.points a.distance).verified,
            (env.matcher a.points a.distance).similarity_score⟩ : Attempt)].filter
            (fun t => t.pid == j && t.extId == e) = [] := by
          apply List.filter_eq_nil_iff.mpr
          intro t ht hc
          rcases List.mem_singleton.mp ht with rfl
          simp only [Bool.and_eq_true, beq_iff_eq] at hc
          exact hkey ⟨hc.1.symm, hc.2.symm⟩
        rw [hfl, List.append_nil]
        exact h j e

lemma UA_foldAct (env : Env) (i : ℕ) :
    ∀ (l : List ActivitySummary) (db : Db), UniqueAttempts db →
      UniqueAttempts (l.foldl (processActivity env i) db) := by
  intro l
  induction l with
  | nil => exact fun db h => h
  | cons a l ih =>
      intro db h
      rw [List.foldl_cons]
      exact ih _ (UA_processActivity env i db a h)

lemma UA_step (env : Env) (db : Db) (i : ℕ) (hU : UniqueAttempts db) :
    UniqueAttempts (stepParticipant env db i) := by
  rcases step_cases env db i with h | h | h | ⟨p, hp, h⟩ <;> rw [h]
  · exact hU
  · exact UA_congr rfl hU
  · exact UA_congr rfl hU
  · exact UA_congr rfl (UA_foldAct env i (candidates env p) db hU)

lemma UA_foldSteps (env : Env) :
    ∀ (L : List ℕ) (db : Db), UniqueAttempts db →
      UniqueAttempts (L.foldl (stepParticipant env) db) := by
  intro L
  induction L with
  | nil => exact fun db h => h
  | cons k L ih =>
      intro db h
      rw [List.foldl_cons]
      exact ih _ (UA_step env db k h)

lemma UA_runPass (env : Env) (db : Db) (h : UniqueAttempts db) :
    UniqueAttempts (runPass env db) :=
  UA_foldSteps env _ db h

lemma UA_iterate (env : Env) (db : Db) (h : UniqueAttempts db) :
    ∀ n : ℕ, UniqueAttempts ((runPass env)^[n] db) := by
  intro n
  induction n with
  | zero => exact h
  | succ n ih =>
      rw [Function.iterate_succ_apply']
      exact UA_runPass env _ ih

lemma lookups_foldl_ne (env : Env) {j : ℕ} :
    ∀ (L : List ℕ), (∀ k ∈ L, k ≠ j) → ∀ d : Db,
      findPart ((L.foldl (stepParticipant env) d)).participants j = findPart d.participants j ∧
      findCredL ((L.foldl (stepParticipant env) d)).credentials j = findCredL d.credentials j ∧
      attemptsFor (L.foldl (stepParticipant env) d) j = attemptsFor d j ∧
      authErrCount (L.foldl (stepParticipant env) d) j = authErrCount d j := by
  intro L
  induction L with
  | nil => exact fun _ d => ⟨rfl, rfl, rfl, rfl⟩
  | cons k L ih =>
      intro hL d
      rw [List.foldl_cons]
      have hk : k ≠ j := hL k (List.mem_cons_self k L)
      have hkj : j ≠ k := fun h => hk h.symm
      obtain ⟨g1, g2, g3, g4⟩ := ih (fun k hk => hL k (List.mem_cons_of_mem _ hk))
        (stepParticipant env d k)
      exact ⟨g1.trans (findPart_step_ne env d hkj),
        g2.trans (findCredL_step_ne env d hkj),
        g3.trans (attemptsFor_step_ne env d hkj),
        g4.trans (authErrCount_step_ne env d hkj)⟩

lemma hasAttempt_foldSteps_mono (env : Env) :
    ∀ (L : List ℕ) (d : Db) {j e : ℕ}, hasAttempt d j e = true →
      hasAttempt (L.foldl (stepParticipant env) d) j e = true := by
  intro L
  induction L with
  | nil => exact fun d _ _ h => h
  | cons k L ih =>
      intro d j e h
      rw [List.foldl_cons]
      exact ih _ (hasAttempt_step_mono env d k h)

lemma hasAttempt_processActivity_self (env : Env) (i : ℕ) (db : Db) (a : ActivitySummary) :
    hasAttempt (processActivity env i db a) i a.extId = true := by
  cases hH : hasAttempt db i a.extId with
  | true =>
      rw [processActivity_skip hH]
      exact hH
  | false =>
      unfold hasAttempt
      rw [processActivity_new_attempts hH, List.any_append]
      simp

lemma hasAttempt_foldAct_mono (env : Env) (i : ℕ) :
    ∀ (l : List ActivitySummary) (db : Db) {j e : ℕ}, hasAttempt db j e = true →
      hasAttempt (l.foldl (processActivity env i) db) j e = true := by
  intro l
  induction l with
  | nil => exact fun db _ _ h => h
  | cons a l ih =>
      intro db j e h
      rw [List.foldl_cons]
      obtain ⟨ts, h1, -⟩ := processActivity_attempts_append env i db a
      exact ih _ (hasAttempt_of_append h1 h)

lemma hasAttempt_foldAct_mem (env : Env) (i : ℕ) :
    ∀ (l : List ActivitySummary) (db : Db) {a : ActivitySummary}, a ∈ l →
      hasAttempt (l.foldl (processActivity env i) db) i a.extId = true := by
  intro l
  induction l with
  | nil =>
      intro db a ha
      cases ha
  | cons b l ih =>
      intro db a ha
      rw [List.foldl_cons]
      rcases List.mem_cons.mp ha with h | h
      · subst h
        exact hasAttempt_foldAct_mono env i l _
          (hasAttempt_processActivity_self env i db a)
      · exact ih _ h

lemma hasAttempt_processActive_mem (env : Env) (i : ℕ) (p : Participant) (db : Db)
    {a : ActivitySummary} (ha : a ∈ candidates env p) :
    hasAttempt (processActive env i p db) i a.extId = true := by
  have h := hasAttempt_foldAct_mem env i (candidates env p) db ha
  unfold hasAttempt at h ⊢
  rw [show (processActive env i p db).attempts =
    ((candidates env p).foldl (processActivity env i) db).attempts from rfl]
  exact h

lemma mem_ids_of_findPart {db : Db} {i : ℕ} {p : Participant}
    (h : findPart db.participants i = some p) :
    i ∈ db.participants.map (fun p => p.id) := by
  have hm : p ∈ db.participants := List.mem_of_find?_eq_some h
  have hid : p.id = i := findPart_mem_id h
  exact hid ▸ List.mem_map_of_mem _ hm

lemma nodup_split {L : List ℕ} {i : ℕ} (hmem : i ∈ L) (hnd : L.Nodup) :
    ∃ L₁ L₂, L = L₁ ++ i :: L₂ ∧ (∀ k ∈ L₁, k ≠ i) ∧ (∀ k ∈ L₂, k ≠ i) := by
  obtain ⟨L₁, L₂, rfl⟩ := List.append_of_mem hmem
  rw [List.nodup_append] at hnd
  obtain ⟨h1, h2, h3⟩ := hnd
  refine ⟨L₁, L₂, rfl, ?_, ?_⟩
  · intro k hk he
    subst he
    exact h3 hk (List.mem_cons_self _ _)
  · intro k hk he
    subst he
    exact (List.nodup_cons.mp h2).1 hk

lemma runPass_processes (env : Env) (db : Db)
    (hnd : (db.participants.map (fun p => p.id)).Nodup)
    {j : ℕ} {q : Participant} {c2 : Credential}
    (hfp : findPart db.participants j = some q) (hst : q.status = PStatus.active)
    (hfc : findCredL db.credentials j = some c2) (hinv : c2.state ≠ CredState.invalid)
    (hrf : env.refreshOk j = true)
    {a : ActivitySummary} (ha : a ∈ env.activities j) (hb : a.isBike = true)
    (hcur : q.cursor < a.extId) :
    hasAttempt (runPass env db) j a.extId = true := by
  obtain ⟨L₁, L₂, hL, hn1, hn2⟩ := nodup_split (mem_ids_of_findPart hfp) hnd
  unfold runPass
  rw [hL, List.foldl_append, List.foldl_cons]
  obtain ⟨g1, g2, -, -⟩ := lookups_foldl_ne env L₁ hn1 db
  have hfp1 : findPart (L₁.foldl (stepParticipant env) db).participants j = some q :=
    g1.trans hfp
  have hfc1 : findCredL (L₁.foldl (stepParticipant env) db).credentials j = some c2 :=
    g2.trans hfc
  rw [stepParticipant_refresh_ok hfp1 hst hfc1 hinv hrf]
  apply hasAttempt_foldSteps_mono
  apply hasAttempt_processActive_mem
  unfold candidates
  rw [show q.id = j from findPart_mem_id hfp1]
  exact List.mem_filter.mpr ⟨ha, by simp [hb, hcur]⟩

lemma runPass_refresh_fail (env : Env) (db : Db)
    (hnd : (db.participants.map (fun p => p.id)).Nodup)
    {i : ℕ} {p : Participant} {c : Credential}
    (hfp : findPart db.participants i = some p) (hst : p.status = PStatus.active)
    (hfc : findCredL db.credentials i = some c) (hinv : c.state ≠ CredState.invalid)
    (hrf : env.refreshOk i = false) :
    findCredL (runPass env db).credentials i = some { c with state := CredState.invalid } ∧
    attemptsFor (runPass env db) i = attemptsFor db i ∧
    authErrCount (runPass env db) i = authErrCount db i + 1 ∧
    findPart (runPass env db).participants i = some p := by
  obtain ⟨L₁, L₂, hL, hn1, hn2⟩ := nodup_split (mem_ids_of_findPart hfp) hnd
  unfold runPass
  rw [hL, List.foldl_append, List.foldl_cons]
  obtain ⟨g1, g2, g3, g4⟩ := lookups_foldl_ne env L₁ hn1 db
  have hfp1 : findPart (L₁.foldl (stepParticipant env) db).participants i = some p :=
    g1.trans hfp
  have hfc1 : findCredL (L₁.foldl (stepParticipant env) db).credentials i = some c :=
    g2.trans hfc
  rw [stepParticipant_refresh_fail hfp1 hst hfc1 hinv hrf]
  obtain ⟨k1, k2, k3, k4⟩ := lookups_foldl_ne env L₂ hn2
    { L₁.foldl (stepParticipant env) db with
      credentials := setInvalid i (L₁.foldl (stepParticipant env) db).credentials,
      audit := (L₁.foldl (stepParticipant env) db).audit ++ [⟨i, AuditKind.authError⟩] }
  refine ⟨?_, ?_, ?_, ?_⟩
  · rw [k2]
    show findCredL (setInvalid i (L₁.foldl (stepParticipant env) db).credentials) i = _
    rw [findCredL_setInvalid, hfc1]
    simp only [Option.map_some']
    rw [if_pos (by simp [findCredL_mem_pid hfc1])]
  · rw [k3]
    have heq : attemptsFor
        { L₁.foldl (stepParticipant env) db with
          credentials := setInvalid i (L₁.foldl (stepParticipant env) db).credentials,
          audit := (L₁.foldl (stepParticipant env) db).audit ++ [⟨i, AuditKind.authError⟩] } i =
        attemptsFor (L₁.foldl (stepParticipant env) db) i := rfl
    rw [heq, g3]
  · rw [k4]
    have hcnt : authErrCount
        { L₁.foldl (stepParticipant env) db with
          credentials := setInvalid i (L₁.foldl (stepParticipant env) db).credentials,
          audit := (L₁.foldl (stepParticipant env) db).audit ++ [⟨i, AuditKind.authError⟩] } i =
        authErrCount (L₁.foldl (stepParticipant env) db) i + 1 := by
      unfold authErrCount
      show (((L₁.foldl (stepParticipant env) db).audit ++
          ([⟨i, AuditKind.authError⟩] : List AuditEntry)).filter
        (fun e2 => e2.pid == i && e2.kind == AuditKind.authError)).length = _
      rw [List.filter_append]
      simp
    rw [hcnt, g4]
  · rw [k1]
    exact hfp1

/-! ### Claim theorems -/

/-- C1: for every configuration with a positive similarity threshold (the
spec's domain is `(0–1]`), the verdict is `verified` exactly when the
similarity score reaches `similarity_threshold` and the recorded distance
reaches `min_distance_m`; in particular any activity whose distance is
below the minimum — even a perfect geometric match — is not verified. -/
theorem verdict_iff_threshold_and_distance (cfg : Config)
    (source_points activity_points : List Pt) (activity_distance : ℝ)
    (hthr : 0 < cfg.similarity_threshold) :
    ((verify_activity_against_source cfg source_points activity_points
        activity_distance).verified = true ↔
      (cfg.similarity_threshold ≤
          calculate_similarity source_points activity_points cfg.max_deviation_m ∧
        cfg.min_distance_m ≤ activity_distance)) ∧
    (activity_distance < cfg.min_distance_m →
      (verify_activity_against_source cfg source_points activity_points
        activity_distance).verified = false) := by
  have hiff := verify_verified_iff cfg source_points activity_points activity_distance hthr
  refine ⟨hiff, fun hlt => ?_⟩
  cases hv : (verify_activity_against_source cfg source_points activity_points
      activity_distance).verified
  · rfl
  · exact absurd (hiff.mp hv).2 (not_le.mpr hlt)

/-- Witness for C1 at a concrete input (perfect-looking setup with an
80 km-style shortfall: distance 50 below the 100000 minimum). -/
theorem verdict_iff_threshold_and_distance_witness :
    (0 : ℝ) < 0.8 ∧
    (((verify_activity_against_source ⟨20, 0.8, 100000⟩ [(0, 0), (0, 1)] [(0, 0)]
        50).verified = true ↔
      ((0.8 : ℝ) ≤ calculate_similarity [(0, 0), (0, 1)] [(0, 0)] 20 ∧
        (100000 : ℝ) ≤ 50)) ∧
     ((50 : ℝ) < 100000 →
      (verify_activity_against_source ⟨20, 0.8, 100000⟩ [(0, 0), (0, 1)] [(0, 0)]
        50).verified = false)) :=
  ⟨by norm_num,
   verdict_iff_threshold_and_distance ⟨20, 0.8, 100000⟩ [(0, 0), (0, 1)] [(0, 0)] 50
     (by norm_num)⟩

/-- C2: the similarity score equals the number of activity points within
`max_deviation` of the source polyline divided by the total number of
points, and it is the guarded constant 0 (not a division error) for an
activity with zero points. -/
theorem similarity_score_formula (source_points activity_points : List Pt)
    (max_deviation : ℝ) :
    calculate_similarity source_points activity_points max_deviation =
      (if activity_points.length = 0 then 0
       else (spec_matched_count source_points max_deviation activity_points : ℝ) /
         (activity_points.length : ℝ)) ∧
    calculate_similarity source_points [] max_deviation = 0 :=
  ⟨calculate_similarity_char source_points activity_points max_deviation,
   calculate_similarity_empty source_points max_deviation⟩

/-- C4 counterexample: for the empty activity trace, every activity point
vacuously lies exactly on the source polyline, but the similarity score is
0, not 1.0 — the claim's second half fails at this input. -/
theorem similarity_perfect_match_empty_cex :
    (∀ p ∈ ([] : List Pt), liesOnSource [((52 : ℝ), 17), (52, 17.1)] p) ∧
    calculate_similarity [((52 : ℝ), 17), (52, 17.1)] [] 20 ≠ 1 := by
  refine ⟨by simp, ?_⟩
  rw [calculate_similarity_empty]
  norm_num

/-- C4 (amended): the similarity score always lies in `[0, 1]`, and for a
nonempty activity all of whose points lie exactly on the source polyline
(with a nonnegative deviation tolerance, as the default 20.0), the score
equals 1.0. -/
theorem similarity_bounds_and_perfect_match (source_points activity_points : List Pt)
    (max_deviation : ℝ) :
    (0 ≤ calculate_similarity source_points activity_points max_deviation ∧
      calculate_similarity source_points activity_points max_deviation ≤ 1) ∧
    (activity_points ≠ [] → 0 ≤ max_deviation →
      (∀ p ∈ activity_points, liesOnSource source_points p) →
      calculate_similarity source_points activity_points max_deviation = 1) :=
  ⟨⟨calculate_similarity_nonneg source_points activity_points max_deviation,
    calculate_similarity_le_one source_points activity_points max_deviation⟩,
   fun hne hdev hall => calculate_similarity_all_on hne hdev hall⟩

/-- Witness for C4 (amended): a two-point activity lying on the source
segment scores exactly 1. -/
theorem similarity_bounds_and_perfect_match_witness :
    (0 ≤ calculate_similarity [((0 : ℝ), 0), (0, 2)] [((0 : ℝ), 0), (0, 1)] 20 ∧
      calculate_similarity [((0 : ℝ), 0), (0, 2)] [((0 : ℝ), 0), (0, 1)] 20 ≤ 1) ∧
    calculate_similarity [((0 : ℝ), 0), (0, 2)] [((0 : ℝ), 0), (0, 1)] 20 = 1 := by
  have h := similarity_bounds_and_perfect_match [((0 : ℝ), 0), (0, 2)]
    [((0 : ℝ), 0), (0, 1)] 20
  refine ⟨h.1, h.2 (by simp) (by norm_num) ?_⟩
  intro p hp
  rcases List.mem_cons.mp hp with rfl | hp2
  · exact ⟨((0, 0), (0, 2)), by simp,
      ⟨0, le_refl 0, by norm_num, by norm_num, by norm_num⟩⟩
  · rcases List.mem_singleton.mp hp2 with rfl
    exact ⟨((0, 0), (0, 2)), by simp,
      ⟨1 / 2, by norm_num, by norm_num, by norm_num, by norm_num⟩⟩

/-- C5: Douglas-Peucker simplification guarantees — the output is no longer
than the input, the first and last points are preserved exactly, and a
straight sub-path (every point exactly on the chord between the endpoints)
collapses to its two endpoints. -/
theorem simplify_points_guarantees (eps : ℝ) (pts : List Pt) :
    (simplify_points eps pts).length ≤ pts.length ∧
    (simplify_points eps pts).head? = pts.head? ∧
    (simplify_points eps pts).getLast? = pts.getLast? ∧
    (0 ≤ eps → 2 ≤ pts.length →
      (∀ p ∈ pts, SegMem p (pts.headD (0, 0)) (pts.getLastD (0, 0))) →
      simplify_points eps pts = [pts.headD (0, 0), pts.getLastD (0, 0)]) :=
  ⟨dpRec_length _ eps pts, dpRec_head? _ eps pts, dpRec_getLast? _ eps pts,
   fun heps h2 hall => simplify_points_straight heps h2 hall⟩

/-- Witness for C5: four collinear points simplify to the two endpoints. -/
theorem simplify_points_guarantees_witness :
    (simplify_points 1 [((0 : ℝ), 0), (1, 0), (2, 0), (3, 0)]).length ≤ 4 ∧
    (simplify_points 1 [((0 : ℝ), 0), (1, 0), (2, 0), (3, 0)]).head? = some (0, 0) ∧
    (simplify_points 1 [((0 : ℝ), 0), (1, 0), (2, 0), (3, 0)]).getLast? = some (3, 0) ∧
    simplify_points 1 [((0 : ℝ), 0), (1, 0), (2, 0), (3, 0)] = [(0, 0), (3, 0)] := by
  have h := simplify_points_guarantees 1 [((0 : ℝ), 0), (1, 0), (2, 0), (3, 0)]
  refine ⟨h.1, ?_, ?_, ?_⟩
  · rw [h.2.1]
    rfl
  · rw [h.2.2.1]
    rfl
  · refine h.2.2.2 (by norm_num) (by norm_num) ?_
    intro p hp
    fin_cases hp
    · exact ⟨0, by norm_num, by norm_num, by norm_num, by norm_num⟩
    · exact ⟨1 / 3, by norm_num, by norm_num, by norm_num, by norm_num⟩
    · exact ⟨2 / 3, by norm_num, by norm_num, by norm_num, by norm_num⟩
    · exact ⟨1, by norm_num, by norm_num, by norm_num, by norm_num⟩

/-- C6: a point that lies exactly on one of the source polyline's segments
has matcher point-to-route distance 0 (minimum point-to-segment distance
converted to meters). -/
theorem point_on_segment_distance_zero (source_points : List Pt) (p : Pt)
    (h : liesOnSource source_points p) : pointRouteDistance source_points p = 0 :=
  pointRouteDistance_eq_zero_of_liesOn h

/-- Witness for C6: the midpoint of a single-segment route. -/
theorem point_on_segment_distance_zero_witness :
    liesOnSource [((0 : ℝ), 0), (0, 2)] (0, 1) ∧
    pointRouteDistance [((0 : ℝ), 0), (0, 2)] (0, 1) = 0 := by
  have hlies : liesOnSource [((0 : ℝ), 0), (0, 2)] (0, 1) :=
    ⟨((0, 0), (0, 2)), by simp,
     ⟨1 / 2, by norm_num, by norm_num, by norm_num, by norm_num⟩⟩
  exact ⟨hlies, point_on_segment_distance_zero _ _ hlies⟩

/-- C7: when a participant's credential refresh fails during a pass, the
credential moves to `invalid`, no attempt row is created for them, an
AuthError audit entry is recorded, their registration row is untouched, and
every other healthy participant's new bike activities are still attempted in
the same pass. -/
theorem failed_refresh_isolation (env : Env) (db : Db) (i : ℕ) (p : Participant)
    (c : Credential)
    (hnd : (db.participants.map (fun p => p.id)).Nodup)
    (hfp : findPart db.participants i = some p)
    (hst : p.status = PStatus.active)
    (hfc : findCredL db.credentials i = some c)
    (hinv : c.state ≠ CredState.invalid)
    (hrf : env.refreshOk i = false) :
    findCredL (runPass env db).credentials i = some { c with state := CredState.invalid } ∧
    attemptsFor (runPass env db) i = attemptsFor db i ∧
    authErrCount (runPass env db) i = authErrCount db i + 1 ∧
    findPart (runPass env db).participants i = some p ∧
    (∀ (j : ℕ) (q : Participant) (c2 : Credential), j ≠ i →
      findPart db.participants j = some q → q.status = PStatus.active →
      findCredL db.credentials j = some c2 → c2.state ≠ CredState.invalid →
      env.refreshOk j = true →
      ∀ a ∈ env.activities j, a.isBike = true → q.cursor < a.extId →
        hasAttempt (runPass env db) j a.extId = true) := by
  obtain ⟨h1, h2, h3, h4⟩ := runPass_refresh_fail env db hnd hfp hst hfc hinv hrf
  refine ⟨h1, h2, h3, h4, ?_⟩
  intro j q c2 _ hfpj hstj hfcj hinvj hrfj a ha hb hcur
  exact runPass_processes env db hnd hfpj hstj hfcj hinvj hrfj ha hb hcur

/-- Witness for C7: in `dbW`/`envW`, participant 1's refresh fails and
participant 2's activity 5 is still attempted. -/
theorem failed_refresh_isolation_witness :
    findCredL (runPass envW dbW).credentials 1 = some ⟨1, CredState.invalid⟩ ∧
    attemptsFor (runPass envW dbW) 1 = attemptsFor dbW 1 ∧
    authErrCount (runPass envW dbW) 1 = authErrCount dbW 1 + 1 ∧
    findPart (runPass envW dbW).participants 1 = some ⟨1, PStatus.active, 0⟩ ∧
    hasAttempt (runPass envW dbW) 2 5 = true := by
  have h := failed_refresh_isolation envW dbW 1 ⟨1, PStatus.active, 0⟩
    ⟨1, CredState.connected⟩ (by decide) (by decide) (by decide) (by decide)
    (by decide) (by decide)
  refine ⟨h.1, h.2.1, h.2.2.1, h.2.2.2.1, ?_⟩
  exact h.2.2.2.2 2 ⟨2, PStatus.active, 0⟩ ⟨2, CredState.connected⟩ (by decide)
    (by decide) (by decide) (by decide) (by decide) (by decide)
    ⟨5, true, [], 0⟩ (List.mem_singleton_self _) (by decide) (by decide)

/-- C3: starting from a store satisfying the key invariant, every number of
reconciliation passes preserves "at most one ActivityAttempt per
(participant, external id)", and a second pass over an unchanged
environment creates zero additional ActivityAttempt or ApprovedActivity
rows and leaves the leaderboard unchanged. -/
theorem attempt_uniqueness_and_idempotency (env : Env) (db : Db)
    (h : UniqueAttempts db) :
    (∀ n : ℕ, UniqueAttempts ((runPass env)^[n] db)) ∧
    (runPass env (runPass env db)).attempts = (runPass env db).attempts ∧
    (runPass env (runPass env db)).approved = (runPass env db).approved ∧
    (runPass env (runPass env db)).leaderboard = (runPass env db).leaderboard :=
  ⟨UA_iterate env db h, runPass_idempotent env db⟩

/-- Witness for C3 on the concrete fixture store. -/
theorem attempt_uniqueness_and_idempotency_witness :
    UniqueAttempts dbW ∧
    UniqueAttempts ((runPass envW)^[2] dbW) ∧
    (runPass envW (runPass envW dbW)).attempts = (runPass envW dbW).attempts := by
  have h0 : UniqueAttempts dbW := fun i e => Nat.zero_le 1
  have h := attempt_uniqueness_and_idempotency envW dbW h0
  exact ⟨h0, h.1 2, h.2.1⟩

/-- C8: the route matcher is deterministic — two invocations on identical
inputs produce the identical verdict, similarity score and message; as a
pure function of its arguments it has no other state to read or write. -/
theorem matcher_deterministic (cfg cfg2 : Config) (src src2 act act2 : List Pt)
    (d d2 : ℝ) (h1 : cfg = cfg2) (h2 : src = src2) (h3 : act = act2) (h4 : d = d2) :
    (verify_activity_against_source cfg src act d).verified =
      (verify_activity_against_source cfg2 src2 act2 d2).verified ∧
    (verify_activity_against_source cfg src act d).similarity_score =
      (verify_activity_against_source cfg2 src2 act2 d2).similarity_score ∧
    (verify_activity_against_source cfg src act d).message =
      (verify_activity_against_source cfg2 src2 act2 d2).message := by
  subst h1
  subst h2
  subst h3
  subst h4
  exact ⟨rfl, rfl, rfl⟩

/-- Witness for C8 at a concrete input. -/
theorem matcher_deterministic_witness :
    (verify_activity_against_source ⟨20, 0.8, 100000⟩ [(0, 0), (0, 1)] [(0, 0)]
        50).verified =
      (verify_activity_against_source ⟨20, 0.8, 100000⟩ [(0, 0), (0, 1)] [(0, 0)]
        50).verified ∧
    (verify_activity_against_source ⟨20, 0.8, 100000⟩ [(0, 0), (0, 1)] [(0, 0)]
        50).similarity_score =
      (verify_activity_against_source ⟨20, 0.8, 100000⟩ [(0, 0), (0, 1)] [(0, 0)]
        50).similarity_score ∧
    (verify_activity_against_source ⟨20, 0.8, 100000⟩ [(0, 0), (0, 1)] [(0, 0)]
        50).message =
      (verify_activity_against_source ⟨20, 0.8, 100000⟩ [(0, 0), (0, 1)] [(0, 0)]
        50).message :=
  matcher_deterministic ⟨20, 0.8, 100000⟩ ⟨20, 0.8, 100000⟩ [(0, 0), (0, 1)]
    [(0, 0), (0, 1)] [(0, 0)] [(0, 0)] 50 50 rfl rfl rfl rfl

/-- C9: direction of travel is not checked — reversing the order of the
activity's points changes neither the similarity score nor the verdict. -/
theorem similarity_reverse_invariant (cfg : Config)
    (source_points activity_points : List Pt) (max_deviation d : ℝ) :
    calculate_similarity source_points activity_points.reverse max_deviation =
      calculate_similarity source_points activity_points max_deviation ∧
    (verify_activity_against_source cfg source_points activity_points.reverse d).verified =
      (verify_activity_against_source cfg source_points activity_points d).verified :=
  ⟨calculate_similarity_reverse source_points activity_points max_deviation,
   by rw [verify_reverse]⟩

/-- C10: the matcher converts raw degree offsets with the single planar
factor 111319.9 applied identically to both coordinates: a point `dl`
degrees of longitude from a meridian route segment is scored at
`111319.9 * dl` meters regardless of latitude (no cos(latitude)
correction), and a latitude offset gets exactly the same factor. -/
theorem flat_conversion_no_lat_correction (lat lat2 lon lon2 dl : ℝ) (h : 0 ≤ dl) :
    pointRouteDistance [(lat, lon), (lat2, lon)] (lat, lon + dl) = 111319.9 * dl ∧
    pointRouteDistance [(lat, lon), (lat, lon2)] (lat + dl, lon) = 111319.9 * dl := by
  rw [pointRouteDistance_same_lat, pointRouteDistance_same_lon, abs_of_nonneg h]
  exact ⟨rfl, rfl⟩

/-- Witness for C10 at the contest's latitude: 0.1° of longitude is scored
as 11131.99 m even at 52°N. -/
theorem flat_conversion_no_lat_correction_witness :
    (0 : ℝ) ≤ 0.1 ∧
    pointRouteDistance [((52 : ℝ), 17), (53, 17)] (52, 17 + 0.1) = 111319.9 * 0.1 ∧
    pointRouteDistance [((52 : ℝ), 17), (52, 18)] (52 + 0.1, 17) = 111319.9 * 0.1 := by
  have h := flat_conversion_no_lat_correction 52 53 17 18 0.1 (by norm_num)
  exact ⟨by norm_num, h.1, h.2⟩
